import Mathlib

/-!
Verification development for the Sneller Grafana datasource's result decoder
(pkg/plugin/query.go and pkg/plugin/reader.go).

The embedding works at the level of decoded top-level ION values: the binary
reader (reader.go) is modelled by presenting the stream as a list of already
decoded top-level values, each carrying its resolved annotation texts and its
value tree.  Field names and annotation texts are carried as resolved strings
(the symbol table of the reader resolves them transparently).  The control
flow of query.go -- iterateRows, deriveSchema, analyzeRow, the field readers,
readRowValues and frameFromSnellerResult -- is translated statement by
statement.
-/

namespace Sneller

/-- ION value type tags, mirroring the constants of the sneller ion package
used by the plugin (the sexp tag stands for the container tags that the
plugin's readers do not support). -/
inductive IonType where
  | null
  | bool
  | uint
  | int
  | float
  | timestamp
  | symbol
  | string
  | blob
  | list
  | struct
  | sexp
  deriving DecidableEq, Repr

/-- A decoded ION value.  Struct field names and symbol payloads appear as
resolved strings; the float and timestamp payloads are carried opaquely as
integers (no claim computes with them). -/
inductive IonValue where
  | null
  | bool (b : Bool)
  | uint (n : Nat)
  | int (i : Int)
  | float (x : Int)
  | timestamp (t : Int)
  | symbol (s : String)
  | string (s : String)
  | blob (bs : List Nat)
  | list (xs : List IonValue)
  | struct (fs : List (String × IonValue))
  | sexp (xs : List IonValue)

/-- The ION type tag of a value, as reader.Type() reports it. -/
def IonValue.typeOf : IonValue → IonType
  | .null => .null
  | .bool _ => .bool
  | .uint _ => .uint
  | .int _ => .int
  | .float _ => .float
  | .timestamp _ => .timestamp
  | .symbol _ => .symbol
  | .string _ => .string
  | .blob _ => .blob
  | .list _ => .list
  | .struct _ => .struct
  | .sexp _ => .sexp

/-- The contents of a struct value (used after a type check established that
the value is a struct). -/
def IonValue.fieldsOf : IonValue → List (String × IonValue)
  | .struct fs => fs
  | _ => []

/-- Rendering of an ION type tag in error messages, as ion.Type.String(). -/
def typeName : IonType → String
  | .null => "null"
  | .bool => "bool"
  | .uint => "uint"
  | .int => "int"
  | .float => "float"
  | .timestamp => "timestamp"
  | .symbol => "symbol"
  | .string => "string"
  | .blob => "blob"
  | .list => "list"
  | .struct => "struct"
  | .sexp => "sexp"

/-- A decode outcome: a returned Go error, or a runtime panic (the nil
pointer dereference that readJSON can perform). -/
inductive DErr where
  | goError (msg : String)
  | nilDeref
  deriving DecidableEq, Repr

/-- One top-level value of the result stream, as the reader delivers it:
the annotation texts preceding the value ([] models a nil annotation slice;
the reader never produces a non-nil empty one) and the value itself.
Binary-level concerns (symbol tables, the version marker, truncation) are
below this level of the embedding. -/
structure TopValue where
  annots : List String
  val : IonValue

/-- Column types, mirroring the snellerColumnType constants. -/
inductive snellerColumnType where
  | unknown
  | null
  | bool
  | number
  | timestamp
  | string
  | struct
  | list
  deriving DecidableEq, Repr

/-- snellerType returns the matching Sneller column type for an ION type
(query.go, snellerType). -/
def snellerType : IonType → snellerColumnType
  | .null => .null
  | .bool => .bool
  | .uint => .number
  | .int => .number
  | .float => .number
  | .timestamp => .timestamp
  | .symbol => .string
  | .string => .string
  | .struct => .struct
  | .list => .list
  | _ => .unknown

/-- A single column of the result set (query.go, snellerColumn). -/
structure snellerColumn where
  Index : Int
  Name : String
  Typ : snellerColumnType
  Nullable : Bool
  Optional : Bool
  Floating : Bool
  Signed : Bool
  Count : Nat
  deriving DecidableEq, Repr

/-- The final query status envelope (query.go, snellerFinalStatus).  The
result_set datum is kept as the raw ION value; none models the zero Datum
(field absent, Datum.IsEmpty). -/
structure snellerFinalStatus where
  Hits : Int
  Misses : Int
  Scanned : Int
  Error : String
  ResultSet : Option IonValue

def zeroFinalStatus : snellerFinalStatus :=
  { Hits := 0, Misses := 0, Scanned := 0, Error := "", ResultSet := none }

/-- The query_error envelope (query.go, snellerQueryError). -/
structure snellerQueryError where
  Error : String
  deriving DecidableEq, Repr

/-- Models ion.Unmarshal of one struct field into snellerFinalStatus: fields
are matched by their ion tag, unknown fields are ignored, integer fields
accept the uint and int encodings, and a shape mismatch is an error. -/
def setFSField (fs : snellerFinalStatus) (n : String) (v : IonValue) :
    Except String snellerFinalStatus :=
  if n = "hits" then
    match v with
    | .uint k => .ok { fs with Hits := (k : Int) }
    | .int i => .ok { fs with Hits := i }
    | _ => .error "ion: cannot unmarshal field \x27hits\x27"
  else if n = "misses" then
    match v with
    | .uint k => .ok { fs with Misses := (k : Int) }
    | .int i => .ok { fs with Misses := i }
    | _ => .error "ion: cannot unmarshal field \x27misses\x27"
  else if n = "scanned" then
    match v with
    | .uint k => .ok { fs with Scanned := (k : Int) }
    | .int i => .ok { fs with Scanned := i }
    | _ => .error "ion: cannot unmarshal field \x27scanned\x27"
  else if n = "error" then
    match v with
    | .string s => .ok { fs with Error := s }
    | _ => .error "ion: cannot unmarshal field \x27error\x27"
  else if n = "result_set" then
    .ok { fs with ResultSet := some v }
  else
    .ok fs

/-- Models reader.Unmarshal(&finalStatus) applied to a struct value. -/
def unmarshalFinalStatus (fields : List (String × IonValue)) :
    Except String snellerFinalStatus :=
  fields.foldlM (fun fs f => setFSField fs f.1 f.2) zeroFinalStatus

/-- Models reader.Unmarshal(&queryError) applied to a struct value. -/
def unmarshalQueryError (fields : List (String × IonValue)) :
    Except String snellerQueryError :=
  fields.foldlM
    (fun (qe : snellerQueryError) f =>
      if f.1 = "error" then
        match f.2 with
        | .string s => .ok { qe with Error := s }
        | _ => .error "ion: cannot unmarshal field \x27error\x27"
      else
        .ok qe)
    { Error := "" }

/-- iterateRows (query.go, lines 499-562) over the decoded top-level values.
The caller-supplied callback is a state transformer (the Go callback mutates
captured state); its result state is kept even on error, modelling in-place
mutation.  A final_status annotated struct is unmarshalled and recorded as
the terminal status; a query_error annotated struct is unmarshalled into a
local that is never read again, and iteration continues; any other
annotation is an error.  A non-struct top-level value is an error.  A data
row is entered (StepIn returns io.EOF on an empty struct, surfaced as the
error "EOF") and handed to the callback.  Any value after a recorded status
is an error, and a missing status at the end of the stream is an error. -/
def iterateRows {σ : Type} (cb : σ → Nat → List (String × IonValue) → σ × Except DErr Unit) :
    List TopValue → σ → Nat → Option snellerFinalStatus → σ × Except DErr snellerFinalStatus
  | [], s, _, st =>
    match st with
    | none => (s, .error (.goError "missing final_status annotation (upstream query error)"))
    | some fs => (s, .ok fs)
  | item :: rest, s, i, st =>
    if st.isSome then
      (s, .error (.goError "unexpected data after ::final_status annotation"))
    else if item.val.typeOf ≠ .struct then
      (s, .error (.goError ("expected \x27struct\x27 type, got \x27" ++ typeName item.val.typeOf ++ "\x27")))
    else
      match item.annots with
      | a :: _ =>
        if a = "final_status" then
          match unmarshalFinalStatus item.val.fieldsOf with
          | .error e => (s, .error (.goError e))
          | .ok fs => iterateRows cb rest s i (some fs)
        else if a = "query_error" then
          match unmarshalQueryError item.val.fieldsOf with
          | .error e => (s, .error (.goError e))
          | .ok _ => iterateRows cb rest s i st
        else
          (s, .error (.goError ("unexpected annotation: [" ++ a ++ "]")))
      | [] =>
        match item.val.fieldsOf with
        | [] => (s, .error (.goError "EOF"))
        | _ :: _ =>
          match cb s i item.val.fieldsOf with
          | (s', .ok _) => iterateRows cb rest s' (i + 1) st
          | (s', .error e) => (s', .error e)

/-- Mutable schema state of the first pass: the running row count and the
columns in creation order.  The Go lookup map always mirrors the Columns
slice, so a lookup is a search of the list by name. -/
structure SchemaState where
  rowCount : Nat
  cols : List snellerColumn

/-- Looks up the column with the given name (the lookup map of
deriveSchema). -/
def colFor (cols : List snellerColumn) (name : String) : Option snellerColumn :=
  cols.find? (fun c => c.Name = name)

/-- Applies a mutation to the first column with the given name, as mutating
the pointer obtained from the lookup map does. -/
def updateNamed (name : String) (f : snellerColumn → snellerColumn) :
    List snellerColumn → List snellerColumn
  | [] => []
  | c :: rest => if c.Name = name then f c :: rest else c :: updateNamed name f rest

/-- The per-field mutations analyzeRow performs on the column it found or
created (query.go, lines 461-491): the stable-index check, the count
increment, the type-union rule, and the numeric flag updates. -/
def updateColumn (col : snellerColumn) (index : Nat) (ityp : IonType) : snellerColumn :=
  let styp := snellerType ityp
  let col := if (index : Int) ≠ col.Index then { col with Index := -1 } else col
  let col := { col with Count := col.Count + 1 }
  let col :=
    if styp ≠ col.Typ then
      if styp = .null then
        { col with Nullable := true }
      else if col.Typ = .null then
        { col with Typ := styp }
      else
        { col with Typ := .unknown }
    else col
  if styp = .number then
    if ityp = .float then { col with Floating := true, Signed := true }
    else if ityp = .int then { col with Signed := true }
    else col
  else col

/-- The fresh column created on first sighting of a field name (query.go,
lines 448-456); the mutations of updateColumn are applied to it in the same
loop iteration. -/
def freshColumn (s : SchemaState) (index : Nat) (name : String) (ityp : IonType) :
    snellerColumn :=
  { Index := (index : Int)
    Name := name
    Typ := snellerType ityp
    Nullable := snellerType ityp = .null
    Optional := s.rowCount ≠ 1
    Floating := false
    Signed := ityp = .int ∨ ityp = .float
    Count := 0 }

/-- One iteration of the analyzeRow field loop: look up or create the column
for the field name, then apply the per-field mutations. -/
def analyzeField (s : SchemaState) (index : Nat) (name : String) (ityp : IonType) :
    SchemaState :=
  match colFor s.cols name with
  | some _ => { s with cols := updateNamed name (fun c => updateColumn c index ityp) s.cols }
  | none => { s with cols := s.cols ++ [updateColumn (freshColumn s index name ityp) index ityp] }

/-- The field loop of analyzeRow, with its running field index. -/
def analyzeFields (s : SchemaState) (index : Nat) :
    List (String × IonValue) → SchemaState
  | [] => s
  | f :: rest => analyzeFields (analyzeField s index f.1 f.2.typeOf) (index + 1) rest

/-- analyzeRow (query.go, lines 435-497): folds the row's fields through
analyzeField, starting at field index 0.  Field names arrive resolved, so
the FieldName error path does not occur at this level. -/
def analyzeRow (s : SchemaState) (row : List (String × IonValue)) : SchemaState :=
  analyzeFields s 0 row

/-- The first-pass callback of deriveSchema (query.go, lines 391-394): the
row count is incremented before the row is analyzed; the callback never
fails at this level. -/
def analyzeCb (s : SchemaState) (_i : Nat) (row : List (String × IonValue)) :
    SchemaState × Except DErr Unit :=
  let s := { s with rowCount := s.rowCount + 1 }
  (analyzeRow s row, .ok ())

/-- The effect of the first pass on a list of data rows. -/
def runRows (s : SchemaState) : List (List (String × IonValue)) → SchemaState
  | [] => s
  | r :: rest => runRows (analyzeRow { s with rowCount := s.rowCount + 1 } r) rest

/-- The UnpackStruct loop restoring column order (query.go, lines 413-423):
label number i assigns ordinal i to the first column bearing that label;
the counter advances whether or not a column matched. -/
def applyLabels (cols : List snellerColumn) : List String → Nat → List snellerColumn
  | [], _ => cols
  | l :: rest, i =>
    applyLabels (updateNamed l (fun c => { c with Index := (i : Int) }) cols) rest (i + 1)

/-- The ordering relation of the final slices.SortFunc call (ascending by
ordinal). -/
def idxLe (a b : snellerColumn) : Prop := a.Index ≤ b.Index

instance : DecidableRel idxLe := fun a b => inferInstanceAs (Decidable (a.Index ≤ b.Index))

instance : IsTotal snellerColumn idxLe := ⟨fun a b => Int.le_total a.Index b.Index⟩

instance : IsTrans snellerColumn idxLe := ⟨fun _ _ _ hab hbc => Int.le_trans hab hbc⟩

/-- Restore the column order from the result_set labels: assign ordinals by
name lookup, then sort ascending by ordinal.  slices.SortFunc is not
guaranteed stable; insertion sort fixes the tie order deterministically
(for the short slices involved Go's sort degenerates to insertion sort as
well). -/
def restoreOrder (cols : List snellerColumn) (labels : List String) : List snellerColumn :=
  List.insertionSort idxLe (applyLabels cols labels 0)

/-- The derived schema of a result set (query.go, snellerSchema).  The
FinalStatus pointer is nil before the status envelope is recorded. -/
structure snellerSchema where
  RowCount : Nat
  Columns : List snellerColumn
  FinalStatus : Option snellerFinalStatus

/-- deriveSchema (query.go, lines 384-433): run the first pass, mark columns
that miss rows as optional, and when the status carries a non-empty
result_set datum restore the column order from its labels (UnpackStruct
fails on a non-struct datum). -/
def deriveSchema (items : List TopValue) : Except DErr snellerSchema :=
  let r := iterateRows analyzeCb items { rowCount := 0, cols := [] } 0 none
  match r.2 with
  | .error e => .error e
  | .ok status =>
    let s := r.1
    let cols := s.cols.map (fun c => if c.Count ≠ s.rowCount then { c with Optional := true } else c)
    match status.ResultSet with
    | none => .ok { RowCount := s.rowCount, Columns := cols, FinalStatus := some status }
    | some ds =>
      match ds with
      | .struct fs =>
        .ok { RowCount := s.rowCount
              Columns := restoreOrder cols (fs.map Prod.fst)
              FinalStatus := some status }
      | _ => .error (.goError "ion: cannot unpack datum into struct")

/-- Go time.Time, represented by its Unix millisecond instant (the only
aspect the plugin computes with: time.UnixMilli and timestamp decoding). -/
structure GoTime where
  millis : Int
  deriving DecidableEq, Repr

/-- A Go float64 as produced by the numeric readers: a converted uint64, a
converted int64, or a raw float payload.  No claim computes with these. -/
inductive GoFloat where
  | ofNat (n : Nat)
  | ofInt (i : Int)
  | raw (x : Int)
  deriving DecidableEq, Repr

/-- The bytes produced by json.Marshal of a boxed decoded value, carried as
the value itself (no claim inspects the rendered text). -/
structure Json where
  val : IonValue

/-- One written cell of a column array.  Nullable readers write vNull for an
explicit ION null. -/
inductive CellValue where
  | vBool (b : Bool)
  | vUint (n : Nat)
  | vInt (i : Int)
  | vFloat (x : GoFloat)
  | vTime (t : GoTime)
  | vStr (s : String)
  | vJson (j : Json)
  | vNull

/-- Models reader.ReadValue (reader.go, lines 520-564): only its default
branch surfaces an error (the final return discards the errors of the typed
arms), so the result is an error exactly for the value tags the switch does
not support, and otherwise the boxed value. -/
def readValue (v : IonValue) : Except String IonValue :=
  match v with
  | .sexp _ => .error ("unsupported ION type \x27" ++ typeName v.typeOf ++ "\x27")
  | v => .ok v

/-- Models json.Marshal of the boxed value; total for the value shapes
readValue produces here (the NaN failure of Go float marshalling is not
representable with the opaque float payload). -/
def jsonMarshal (v : IonValue) : Except String Json := .ok { val := v }

/-- readJSONNullable (query.go, lines 193-205): the pointer result and the
error result, (none, some e) on failure. -/
def readJSONNullable (v : IonValue) : Option Json × Option String :=
  match readValue v with
  | .error e => (none, some e)
  | .ok gv =>
    match jsonMarshal gv with
    | .error e => (none, some e)
    | .ok b => (some b, none)

/-- readJSON (query.go, lines 188-191): discards the error of
readJSONNullable and dereferences the returned pointer; a nil pointer is a
runtime panic. -/
def readJSON (v : IonValue) : Except DErr CellValue :=
  match (readJSONNullable v).1 with
  | some j => .ok (.vJson j)
  | none => .error .nilDeref

/-- The nullable JSON reader returns the error of readJSONNullable instead
of dereferencing (query.go via newFieldValues); note an ION null marshals to
a JSON value, not to a nil cell. -/
def readJSONNullableCell (v : IonValue) : Except DErr CellValue :=
  match readJSONNullable v with
  | (_, some e) => .error (.goError e)
  | (some j, none) => .ok (.vJson j)
  | (none, none) => .error .nilDeref

def readBool (v : IonValue) : Except DErr CellValue :=
  match v with
  | .bool b => .ok (.vBool b)
  | _ => .error (.goError ("expected \x27bool\x27 type, got \x27" ++ typeName v.typeOf ++ "\x27"))

def readBoolNullable (v : IonValue) : Except DErr CellValue :=
  match v with
  | .null => .ok .vNull
  | v => readBool v

def readUint64 (v : IonValue) : Except DErr CellValue :=
  match v with
  | .uint n => .ok (.vUint n)
  | _ => .error (.goError ("expected \x27uint\x27 type, got \x27" ++ typeName v.typeOf ++ "\x27"))

def readUint64Nullable (v : IonValue) : Except DErr CellValue :=
  match v with
  | .null => .ok .vNull
  | v => readUint64 v

def readInt64 (v : IonValue) : Except DErr CellValue :=
  match v with
  | .int i => .ok (.vInt i)
  | _ => .error (.goError ("expected \x27int\x27 type, got \x27" ++ typeName v.typeOf ++ "\x27"))

def readInt64Nullable (v : IonValue) : Except DErr CellValue :=
  match v with
  | .null => .ok .vNull
  | v => readInt64 v

/-- readFloat64 delegates to reader.ReadNumber (reader.go, lines 449-468):
uint and int values widen to float64. -/
def readFloat64 (v : IonValue) : Except DErr CellValue :=
  match v with
  | .uint n => .ok (.vFloat (.ofNat n))
  | .int i => .ok (.vFloat (.ofInt i))
  | .float x => .ok (.vFloat (.raw x))
  | _ => .error (.goError ("expected numeric type, got \x27" ++ typeName v.typeOf ++ "\x27"))

def readFloat64Nullable (v : IonValue) : Except DErr CellValue :=
  match v with
  | .null => .ok .vNull
  | v => readFloat64 v

/-- readString delegates to reader.ReadText (reader.go, lines 486-503):
symbol and string values are accepted. -/
def readString (v : IonValue) : Except DErr CellValue :=
  match v with
  | .symbol s => .ok (.vStr s)
  | .string s => .ok (.vStr s)
  | _ => .error (.goError ("expected text type, got \x27" ++ typeName v.typeOf ++ "\x27"))

def readStringNullable (v : IonValue) : Except DErr CellValue :=
  match v with
  | .null => .ok .vNull
  | v => readString v

def readTime (v : IonValue) : Except DErr CellValue :=
  match v with
  | .timestamp t => .ok (.vTime { millis := t })
  | _ => .error (.goError ("expected \x27timestamp\x27 type, got \x27" ++ typeName v.typeOf ++ "\x27"))

def readTimeNullable (v : IonValue) : Except DErr CellValue :=
  match v with
  | .null => .ok .vNull
  | v => readTime v

/-- readTimeFromInt64 (query.go, lines 266-272): reads through ReadInt (so
only int-tagged values are accepted) and converts with time.UnixMilli. -/
def readTimeFromInt64 (v : IonValue) : Except DErr CellValue :=
  match v with
  | .int i => .ok (.vTime { millis := i })
  | _ => .error (.goError ("expected \x27int\x27 type, got \x27" ++ typeName v.typeOf ++ "\x27"))

def readTimeFromInt64Nullable (v : IonValue) : Except DErr CellValue :=
  match v with
  | .null => .ok .vNull
  | v => readTimeFromInt64 v

/-- readTimeFromString (query.go, lines 285-297): reads through ReadString
(strings only, not symbols) and parses as RFC 3339; the parser itself is the
Go standard library, taken as a parameter. -/
def readTimeFromString (parse : String → Option GoTime) (v : IonValue) :
    Except DErr CellValue :=
  match v with
  | .string s =>
    match parse s with
    | some t => .ok (.vTime t)
    | none => .error (.goError ("parsing time \x27" ++ s ++ "\x27 as RFC3339: cannot parse"))
  | _ => .error (.goError ("expected \x27string\x27 type, got \x27" ++ typeName v.typeOf ++ "\x27"))

def readTimeFromStringNullable (parse : String → Option GoTime) (v : IonValue) :
    Except DErr CellValue :=
  match v with
  | .null => .ok .vNull
  | v => readTimeFromString parse v

/-- The Grafana field types the plugin maps to (data.FieldType); the n-
prefixed constructors are the nullable variants. -/
inductive FieldType where
  | json
  | bool
  | uint64
  | int64
  | float64
  | time
  | str
  | nJson
  | nBool
  | nUint64
  | nInt64
  | nFloat64
  | nTime
  | nStr
  deriving DecidableEq, Repr

/-- data.FieldType.NullableType(). -/
def nullableType : FieldType → FieldType
  | .json => .nJson
  | .bool => .nBool
  | .uint64 => .nUint64
  | .int64 => .nInt64
  | .float64 => .nFloat64
  | .time => .nTime
  | .str => .nStr
  | t => t

/-- Rendering of a field type in error messages. -/
def fieldTypeName : FieldType → String
  | .json => "json.RawMessage"
  | .bool => "bool"
  | .uint64 => "uint64"
  | .int64 => "int64"
  | .float64 => "float64"
  | .time => "time.Time"
  | .str => "string"
  | .nJson => "*json.RawMessage"
  | .nBool => "*bool"
  | .nUint64 => "*uint64"
  | .nInt64 => "*int64"
  | .nFloat64 => "*float64"
  | .nTime => "*time.Time"
  | .nStr => "*string"

/-- grafanaType (query.go, lines 94-131).  The Go default branch is
unreachable (every snellerColumnType constant is covered), so it has no
counterpart here. -/
def grafanaType (column : snellerColumn) : FieldType :=
  let result : FieldType :=
    match column.Typ with
    | .unknown => .json
    | .null => .json
    | .bool => .bool
    | .number =>
      if column.Floating then .float64
      else if column.Signed then .int64
      else .uint64
    | .timestamp => .time
    | .string => .str
    | .struct => .json
    | .list => .json
  if column.Nullable || column.Optional then nullableType result else result

/-- One column's typed array plus its bound read function (query.go,
fieldValues / newFieldValues).  The preallocated array is a list of cells,
none standing for a slot the pass has not written (the Go zero value). -/
structure fieldValues where
  Name : String
  cells : List (Option CellValue)
  read : IonValue → Except DErr CellValue

def newFieldValues (name : String) (rowCount : Nat)
    (fn : IonValue → Except DErr CellValue) : fieldValues :=
  { Name := name, cells := List.replicate rowCount none, read := fn }

/-- grafanaFieldValues (query.go, lines 133-184): choose the read function
from the resolved Grafana type; on the time-field path only the four listed
types are supported. -/
def grafanaFieldValues (parse : String → Option GoTime) (name : String) (rowCount : Nat)
    (column : snellerColumn) (isTimeField : Bool) : Except DErr fieldValues :=
  let typ := grafanaType column
  if isTimeField then
    match typ with
    | .uint64 => .ok (newFieldValues name rowCount readTimeFromInt64)
    | .int64 => .ok (newFieldValues name rowCount readTimeFromInt64)
    | .nInt64 => .ok (newFieldValues name rowCount readTimeFromInt64Nullable)
    | .str => .ok (newFieldValues name rowCount (readTimeFromString parse))
    | .nStr => .ok (newFieldValues name rowCount (readTimeFromStringNullable parse))
    | _ => .error (.goError ("unsupported field type for time field: " ++ fieldTypeName typ))
  else
    match typ with
    | .json => .ok (newFieldValues name rowCount readJSON)
    | .nJson => .ok (newFieldValues name rowCount readJSONNullableCell)
    | .bool => .ok (newFieldValues name rowCount readBool)
    | .nBool => .ok (newFieldValues name rowCount readBoolNullable)
    | .uint64 => .ok (newFieldValues name rowCount readUint64)
    | .nUint64 => .ok (newFieldValues name rowCount readUint64Nullable)
    | .int64 => .ok (newFieldValues name rowCount readInt64)
    | .nInt64 => .ok (newFieldValues name rowCount readInt64Nullable)
    | .float64 => .ok (newFieldValues name rowCount readFloat64)
    | .nFloat64 => .ok (newFieldValues name rowCount readFloat64Nullable)
    | .time => .ok (newFieldValues name rowCount readTime)
    | .nTime => .ok (newFieldValues name rowCount readTimeNullable)
    | .str => .ok (newFieldValues name rowCount readString)
    | .nStr => .ok (newFieldValues name rowCount readStringNullable)

/-- The inner loop of readRowValues for one row field: every fieldValues
entry whose name matches reads the value and writes its cell; a read error
aborts immediately, keeping the writes made so far. -/
def applyFieldValue (idx : Nat) (n : String) (v : IonValue) :
    List fieldValues → List fieldValues × Except DErr Unit
  | [] => ([], .ok ())
  | fv :: rest =>
    if fv.Name ≠ n then
      let r := applyFieldValue idx n v rest
      (fv :: r.1, r.2)
    else
      match fv.read v with
      | .error e => (fv :: rest, .error e)
      | .ok c =>
        let fv' := { fv with cells := fv.cells.set idx (some c) }
        let r := applyFieldValue idx n v rest
        (fv' :: r.1, r.2)

/-- readRowValues (query.go, lines 586-606): dispatch each field of the row
to the matching columns' read functions. -/
def readRowValues (fvs : List fieldValues) (idx : Nat) :
    List (String × IonValue) → List fieldValues × Except DErr Unit
  | [] => (fvs, .ok ())
  | (n, v) :: rest =>
    match applyFieldValue idx n v fvs with
    | (fvs', .ok _) => readRowValues fvs' idx rest
    | (fvs', .error e) => (fvs', .error e)

/-- The assembled Grafana data frame: named columns, the executed query and
the three summary statistics (their float64 conversion is carried as the
integer value). -/
structure Frame where
  refID : String
  sql : String
  fields : List (String × List (Option CellValue))
  hits : Int
  misses : Int
  scanned : Int

/-- Step 2 of frameFromSnellerResult (query.go, lines 42-55): allocate the
typed arrays and bound readers for all columns, aborting on an unsupported
mapping. -/
def mkFieldVals (parse : String → Option GoTime) (schema : snellerSchema)
    (timeField : String) : Except DErr (List fieldValues) :=
  schema.Columns.mapM (fun column =>
    let isTimeField := column.Name = timeField ∧
      (column.Typ = .string ∨ (column.Typ = .number ∧ column.Floating = false))
    grafanaFieldValues parse column.Name schema.RowCount column (decide isTimeField))

/-- The second pass of frameFromSnellerResult (query.go, line 57): a new
iteration over the same buffered values with the readRowValues callback. -/
def secondPass (items : List TopValue) (fieldVals : List fieldValues) :
    List fieldValues × Except DErr snellerFinalStatus :=
  iterateRows readRowValues items fieldVals 0 none

/-- frameFromSnellerResult (query.go, lines 18-90).  The error of the second
pass is assigned but never checked, so the frame is assembled and returned
regardless of it; only a panic (nil dereference) unwinds past the call. -/
def frameFromSnellerResult (parse : String → Option GoTime) (refID sql : String)
    (items : List TopValue) (timeField : String) : Except DErr Frame :=
  match deriveSchema items with
  | .error e => .error e
  | .ok schema =>
    match schema.FinalStatus with
    | none => .error (.goError "query execution failed: \x27missing ::final_status annotation\x27")
    | some fs =>
      if fs.Error ≠ "" then
        .error (.goError ("query execution failed: \x27" ++ fs.Error ++ "\x27"))
      else
        match mkFieldVals parse schema timeField with
        | .error e => .error e
        | .ok fieldVals =>
          let second := secondPass items fieldVals
          match second.2 with
          | .error .nilDeref => .error .nilDeref
          | _ =>
            .ok { refID := refID
                  sql := sql
                  fields := second.1.map (fun fv => (fv.Name, fv.cells))
                  hits := fs.Hits
                  misses := fs.Misses
                  scanned := fs.Scanned }

/-! Concrete streams used by witnesses and counterexamples. -/

/-- A data row as a top-level value (no annotations). -/
def rowItem (r : List (String × IonValue)) : TopValue :=
  { annots := [], val := .struct r }

/-- A final_status envelope wrapping the given struct fields. -/
def fsItem (fields : List (String × IonValue)) : TopValue :=
  { annots := ["final_status"], val := .struct fields }

/-- A query_error envelope wrapping the given message. -/
def qeItem (msg : String) : TopValue :=
  { annots := ["query_error"], val := .struct [("error", .string msg)] }

/-- A parse function that is never consulted (streams without a text time
field). -/
def noParse : String → Option GoTime := fun _ => none

/-- Two rows whose only difference from c2StreamB is their order: the first
row holds the field x twice, the second holds y once. -/
def c2StreamA : List TopValue :=
  [rowItem [("x", .string "a"), ("x", .string "b")], rowItem [("y", .string "c")], fsItem []]

/-- The same multiset of rows as c2StreamA, reversed. -/
def c2StreamB : List TopValue :=
  [rowItem [("y", .string "c")], rowItem [("x", .string "a"), ("x", .string "b")], fsItem []]

/-- A single row holding the field x twice. -/
def c3Stream : List TopValue :=
  [rowItem [("x", .string "a"), ("x", .string "b")], fsItem []]

/-- Two rows naming p and q in opposite orders (so both ordinals become -1),
with a result_set listing only q. -/
def c7Stream : List TopValue :=
  [rowItem [("p", .string "1"), ("q", .string "2")],
   rowItem [("q", .string "3"), ("p", .string "4")],
   fsItem [("result_set", .struct [("q", .null)])]]

/-- One row naming p and q, with a result_set listing only q: the unlisted p
keeps its first-seen ordinal 0. -/
def c7StreamOne : List TopValue :=
  [rowItem [("p", .string "1"), ("q", .string "2")],
   fsItem [("result_set", .struct [("q", .null)])]]

/-- A stream whose rows type the field x as uint in one row and int in the
other, so the column resolves to a signed integer but the first row's value
fails the int read of the second pass. -/
def c6Stream : List TopValue :=
  [rowItem [("x", .uint 1)], rowItem [("x", .int (-1))], fsItem []]

/-- A stream holding a query_error envelope, then a data row, then the
terminal success envelope. -/
def c4Stream : List TopValue :=
  [qeItem "boom", rowItem [("x", .string "v")], fsItem []]

/-- A callback that only counts its invocations. -/
def countCb : Nat → Nat → List (String × IonValue) → Nat × Except DErr Unit :=
  fun n _ _ => (n + 1, .ok ())

/-- The column of the c1 witness: a text column with a consistent state. -/
def c1Col : snellerColumn :=
  { Index := 0, Name := "x", Typ := .string, Nullable := false, Optional := false,
    Floating := false, Signed := false, Count := 1 }

/-- A non-floating unsigned number column (every observed value uint). -/
def c8Column : snellerColumn :=
  { Index := 0, Name := "t", Typ := .number, Nullable := false, Optional := false,
    Floating := false, Signed := false, Count := 1 }

/-- The nullable variant of c8Column. -/
def c8NullableColumn : snellerColumn := { c8Column with Nullable := true }

/-- A concrete RFC 3339 parser fragment standing in for time.Parse in
witnesses: it accepts exactly one instant. -/
def parseOne : String → Option GoTime :=
  fun s => if s = "2021-01-30T22:00:00Z" then some { millis := 1612044000000 } else none

/-! Attribute-level view of a column: everything except the ordinal and the
name.  Used to reason about the parts of a descriptor the ordinal tie-breaks
do not affect. -/

structure ColAttrs where
  typ : snellerColumnType
  nullable : Bool
  optional : Bool
  floating : Bool
  signed : Bool
  count : Nat
  deriving DecidableEq, Repr

def attrsOf (c : snellerColumn) : ColAttrs :=
  { typ := c.Typ, nullable := c.Nullable, optional := c.Optional,
    floating := c.Floating, signed := c.Signed, count := c.Count }

/-- The type-union transition of analyzeRow, extracted. -/
def stepTyp (cur st : snellerColumnType) : snellerColumnType :=
  if st ≠ cur then
    if st = .null then cur
    else if cur = .null then st
    else .unknown
  else cur

/-- The nullable-flag transition of analyzeRow, extracted. -/
def stepNullable (cur : snellerColumnType) (nb : Bool) (st : snellerColumnType) : Bool :=
  if st ≠ cur ∧ st = .null then true else nb

/-- The attribute effect of one observed field value on a column. -/
def stepAttrs (a : ColAttrs) (it : IonType) : ColAttrs :=
  let st := snellerType it
  { typ := stepTyp a.typ st
    nullable := stepNullable a.typ a.nullable st
    optional := a.optional
    floating := if st = .number ∧ it = .float then true else a.floating
    signed := if st = .number ∧ (it = .float ∨ it = .int) then true else a.signed
    count := a.count + 1 }

/-- Whether an Except result is a success. -/
def isOkB {ε α : Type} : Except ε α → Bool
  | .ok _ => true
  | .error _ => false

/-- The attribute view of a freshly created column. -/
def freshAttrs (rc : Nat) (it : IonType) : ColAttrs :=
  { typ := snellerType it
    nullable := decide (snellerType it = .null)
    optional := decide (rc ≠ 1)
    floating := false
    signed := decide (it = .int ∨ it = .float)
    count := 0 }

/-- The observed value types of one field name within one row, in field
order. -/
def obsOf (row : List (String × IonValue)) (name : String) : List IonType :=
  row.filterMap (fun f => if f.1 = name then some f.2.typeOf else none)

/-- All observed value types of one field name across a row sequence. -/
def obsAll (rows : List (List (String × IonValue))) (name : String) : List IonType :=
  rows.flatMap (fun r => obsOf r name)

/-- The resolved union of a list of observed column types: null when no
non-null type was observed, the common type when all non-null observations
agree, and the unknown sentinel otherwise. -/
def resolveTyp (l : List snellerColumnType) : snellerColumnType :=
  match l.filter (fun t => decide (t ≠ .null)) with
  | [] => .null
  | t :: rest => if rest.all (fun u => decide (u = t)) then t else .unknown

/-- The closed-form attribute view of a column after a list of observations,
with the given creation-time optional flag. -/
def closedForm (obs : List IonType) (optFlag : Bool) : ColAttrs :=
  { typ := resolveTyp (obs.map snellerType)
    nullable := obs.any (fun t => decide (t = .null))
    optional := optFlag
    floating := obs.any (fun t => decide (t = .float))
    signed := obs.any (fun t => decide (t = .int) || decide (t = .float))
    count := obs.length }

/-- The attribute effect of one row's observations for one name, with the
row count the pass holds while processing that row (it fixes the optional
flag on creation). -/
def applyObs (a : Option ColAttrs) (rc : Nat) (obs : List IonType) : Option ColAttrs :=
  obs.foldl
    (fun acc it =>
      match acc with
      | some x => some (stepAttrs x it)
      | none => some (stepAttrs (freshAttrs rc it) it))
    a

/-- The attribute effect of a row sequence for one name, threading the row
count. -/
def rowsApply (a : Option ColAttrs) (rc : Nat) (name : String) :
    List (List (String × IonValue)) → Option ColAttrs
  | [] => a
  | r :: rest => rowsApply (applyObs a (rc + 1) (obsOf r name)) (rc + 1) name rest

/-- The optional-marking step deriveSchema performs after the pass, on the
attribute view. -/
def markOpt (a : ColAttrs) (rc : Nat) : ColAttrs :=
  if a.count ≠ rc then { a with optional := true } else a

/-! Claim theorems. -/

/-- The per-field mutations of analyzeRow act on the attribute view through
stepAttrs; the ordinal is the only part they touch beyond it. -/
theorem attrs_updateColumn (c : snellerColumn) (i : Nat) (it : IonType) :
    attrsOf (updateColumn c i it) = stepAttrs (attrsOf c) it := by
  obtain ⟨idx, nm, typ, nb, opt, fl, sg, ct⟩ := c
  unfold updateColumn stepAttrs stepTyp stepNullable
  by_cases h : ((i : Int) ≠ idx) <;> cases it <;>
    simp [h, snellerType, attrsOf] <;> split_ifs <;> simp_all

/-- Only the null ion type maps to the null column type. -/
theorem snellerType_eq_null (it : IonType) : snellerType it = .null ↔ it = .null := by
  cases it <;> simp [snellerType]

/-- Rewriting rule for resolveTyp when no non-null observation exists. -/
theorem resolveTyp_of_filter_nil {l : List snellerColumnType}
    (h : l.filter (fun t => decide (t ≠ .null)) = []) : resolveTyp l = .null := by
  unfold resolveTyp
  rw [h]

/-- Rewriting rule for resolveTyp when a first non-null observation exists. -/
theorem resolveTyp_of_filter_cons {l : List snellerColumnType} {t : snellerColumnType}
    {rest : List snellerColumnType}
    (h : l.filter (fun t => decide (t ≠ .null)) = t :: rest) :
    resolveTyp l = if rest.all (fun u => decide (u = t)) then t else .unknown := by
  unfold resolveTyp
  rw [h]

/-- The head of the non-null filtering is itself non-null. -/
theorem head_filter_ne_null {l : List snellerColumnType} {t : snellerColumnType}
    {rest : List snellerColumnType}
    (h : l.filter (fun t => decide (t ≠ .null)) = t :: rest) :
    t ≠ snellerColumnType.null := by
  have := List.mem_filter.mp (h ▸ List.mem_cons_self t rest)
  simpa using this.2

/-- When an observation list resolves to null, every element is null. -/
theorem all_null_of_resolveTyp_null {l : List snellerColumnType}
    (h : resolveTyp l = .null) : ∀ t ∈ l, t = .null := by
  intro t ht
  by_contra hne
  have hmem : t ∈ l.filter (fun t => decide (t ≠ .null)) :=
    List.mem_filter.mpr ⟨ht, by simpa⟩
  cases hf : l.filter (fun t => decide (t ≠ .null)) with
  | nil => rw [hf] at hmem; exact absurd hmem (List.not_mem_nil t)
  | cons u rest =>
    rw [resolveTyp_of_filter_cons hf] at h
    have hu := head_filter_ne_null hf
    split at h
    · exact hu h
    · exact absurd h (by simp)

/-- resolveTyp depends only on the non-null filtering. -/
theorem resolveTyp_ext {l₁ l₂ : List snellerColumnType}
    (h : l₁.filter (fun t => decide (t ≠ .null)) = l₂.filter (fun t => decide (t ≠ .null))) :
    resolveTyp l₁ = resolveTyp l₂ := by
  unfold resolveTyp
  rw [h]

theorem stepTyp_self (t : snellerColumnType) : stepTyp t t = t := by
  simp [stepTyp]

theorem stepTyp_null_right (cur : snellerColumnType) : stepTyp cur .null = cur := by
  unfold stepTyp
  split_ifs <;> simp_all

theorem stepTyp_adopt {st : snellerColumnType} (h : st ≠ .null) :
    stepTyp .null st = st := by
  unfold stepTyp
  split_ifs <;> simp_all

theorem stepTyp_conflict {cur st : snellerColumnType} (h1 : st ≠ cur) (h2 : st ≠ .null)
    (h3 : cur ≠ .null) : stepTyp cur st = .unknown := by
  unfold stepTyp
  split_ifs <;> simp_all

theorem stepTyp_unknown_left {st : snellerColumnType} (h : st ≠ .null) :
    stepTyp .unknown st = .unknown := by
  unfold stepTyp
  split_ifs <;> simp_all

/-- Appending one observation to the resolved union is the stepTyp
transition. -/
theorem resolveTyp_append (l : List snellerColumnType) (st : snellerColumnType) :
    resolveTyp (l ++ [st]) = stepTyp (resolveTyp l) st := by
  by_cases hst : st = snellerColumnType.null
  · subst hst
    rw [stepTyp_null_right]
    refine resolveTyp_ext ?_
    rw [List.filter_append]
    simp
  · have hfr : (l ++ [st]).filter (fun t => decide (t ≠ .null))
        = l.filter (fun t => decide (t ≠ .null)) ++ [st] := by
      rw [List.filter_append]
      simp [hst]
    cases hf : l.filter (fun t => decide (t ≠ .null)) with
    | nil =>
      have hc : (l ++ [st]).filter (fun t => decide (t ≠ .null)) = st :: [] := by
        rw [hfr, hf]; rfl
      rw [resolveTyp_of_filter_cons hc, resolveTyp_of_filter_nil hf, stepTyp_adopt hst]
      simp
    | cons t rest =>
      have ht := head_filter_ne_null hf
      have hc : (l ++ [st]).filter (fun t => decide (t ≠ .null)) = t :: (rest ++ [st]) := by
        rw [hfr, hf]; rfl
      rw [resolveTyp_of_filter_cons hc, resolveTyp_of_filter_cons hf]
      by_cases hall : rest.all (fun u => decide (u = t)) = true
      · rw [if_pos hall]
        by_cases hte : st = t
        · subst hte
          rw [stepTyp_self, if_pos (by rw [List.all_append]; simp [hall])]
        · rw [stepTyp_conflict hte hst ht, if_neg (by simp_all)]
      · rw [if_neg hall, stepTyp_unknown_left hst, if_neg (by simp_all)]

/-- One stepAttrs transition extends the closed form by one observation. -/
theorem stepAttrs_closedForm (obs : List IonType) (flag : Bool) (it : IonType)
    (h : obs ≠ []) :
    stepAttrs (closedForm obs flag) it = closedForm (obs ++ [it]) flag := by
  have htyp : stepTyp (resolveTyp (obs.map snellerType)) (snellerType it)
      = resolveTyp ((obs ++ [it]).map snellerType) := by
    rw [List.map_append]
    exact (resolveTyp_append _ _).symm
  have hnull : stepNullable (resolveTyp (obs.map snellerType))
      (obs.any fun t => decide (t = IonType.null)) (snellerType it)
      = (obs ++ [it]).any fun t => decide (t = IonType.null) := by
    unfold stepNullable
    rw [List.any_append]
    by_cases hit : it = IonType.null
    · subst hit
      by_cases hcur : resolveTyp (obs.map snellerType) = snellerColumnType.null
      · rw [if_neg (fun hh => hh.1 (by simpa [snellerType] using hcur.symm))]
        obtain ⟨t, rest, rfl⟩ : ∃ t rest, obs = t :: rest := by
          cases obs with
          | nil => exact absurd rfl h
          | cons t rest => exact ⟨t, rest, rfl⟩
        have ht : t = IonType.null :=
          (snellerType_eq_null t).mp
            (all_null_of_resolveTyp_null hcur (snellerType t) (by simp))
        subst ht
        simp
      · rw [if_pos ⟨by simpa [snellerType] using fun hh => hcur hh.symm,
          by simp [snellerType]⟩]
        simp
    · have hsn : snellerType it ≠ snellerColumnType.null :=
        fun hh => hit ((snellerType_eq_null it).mp hh)
      rw [if_neg (fun hh => hsn hh.2)]
      simp [hit]
  have hflo : (if snellerType it = snellerColumnType.number ∧ it = IonType.float then true
      else obs.any fun t => decide (t = IonType.float))
      = (obs ++ [it]).any fun t => decide (t = IonType.float) := by
    rw [List.any_append]
    by_cases hf : it = IonType.float
    · subst hf
      rw [if_pos ⟨by simp [snellerType], rfl⟩]
      simp
    · rw [if_neg (fun hh => hf hh.2)]
      simp [hf]
  have hsig : (if snellerType it = snellerColumnType.number
        ∧ (it = IonType.float ∨ it = IonType.int)
      then true else obs.any fun t => decide (t = IonType.int) || decide (t = IonType.float))
      = (obs ++ [it]).any fun t => decide (t = IonType.int) || decide (t = IonType.float) := by
    rw [List.any_append]
    by_cases hf : it = IonType.float
    · subst hf
      rw [if_pos ⟨by simp [snellerType], Or.inl rfl⟩]
      simp
    · by_cases hi : it = IonType.int
      · subst hi
        rw [if_pos ⟨by simp [snellerType], Or.inr rfl⟩]
        simp
      · rw [if_neg (fun hh => hh.2.elim hf hi)]
        simp [hf, hi]
  unfold stepAttrs closedForm
  dsimp only
  rw [htyp, hnull, hflo, hsig]
  simp

/-- A fresh column followed by its own first observation is the closed form
of a single observation. -/
theorem stepAttrs_freshAttrs (rc : Nat) (it : IonType) :
    stepAttrs (freshAttrs rc it) it = closedForm [it] (decide (rc ≠ 1)) := by
  have hopt : (freshAttrs rc it).optional = decide (rc ≠ 1) := rfl
  cases it <;>
    simp [stepAttrs, freshAttrs, closedForm, stepTyp, stepNullable, resolveTyp, snellerType]

/-- applyObs on an already created column extends its closed form. -/
theorem applyObs_some_closedForm (obs : List IonType) :
    ∀ (l : List IonType) (flag : Bool) (rc : Nat), l ≠ [] →
    applyObs (some (closedForm l flag)) rc obs = some (closedForm (l ++ obs) flag) := by
  induction obs with
  | nil => intro l flag rc _; simp [applyObs]
  | cons it rest ih =>
    intro l flag rc hl
    have h1 : applyObs (some (closedForm l flag)) rc (it :: rest)
        = applyObs (some (stepAttrs (closedForm l flag) it)) rc rest := rfl
    rw [h1, stepAttrs_closedForm l flag it hl, ih (l ++ [it]) flag rc (by simp)]
    simp

/-- applyObs on an absent column creates it and yields the closed form of
the row's observations, with the optional flag fixed by the row count. -/
theorem applyObs_none (obs : List IonType) (rc : Nat) :
    applyObs none rc obs
      = if obs = [] then none else some (closedForm obs (decide (rc ≠ 1))) := by
  cases obs with
  | nil => rfl
  | cons it rest =>
    have h1 : applyObs none rc (it :: rest)
        = applyObs (some (stepAttrs (freshAttrs rc it) it)) rc rest := rfl
    rw [h1, stepAttrs_freshAttrs rc it,
      applyObs_some_closedForm rest [it] (decide (rc ≠ 1)) rc (by simp)]
    simp

/-- updateColumn does not rename the column. -/
theorem updateColumn_Name (c : snellerColumn) (i : Nat) (it : IonType) :
    (updateColumn c i it).Name = c.Name := by
  unfold updateColumn
  dsimp only
  split_ifs <;> rfl

/-- Looking up the updated name yields the mutated column. -/
theorem colFor_updateNamed_self {cols : List snellerColumn} {n : String}
    {c : snellerColumn} (f : snellerColumn → snellerColumn)
    (hf : ∀ c, (f c).Name = c.Name) (h : colFor cols n = some c) :
    colFor (updateNamed n f cols) n = some (f c) := by
  induction cols with
  | nil => simp [colFor] at h
  | cons d rest ih =>
    by_cases hd : d.Name = n
    · rw [colFor, List.find?_cons_of_pos _ (by simpa using hd)] at h
      cases h
      rw [updateNamed, if_pos hd, colFor,
        List.find?_cons_of_pos _ (by simp [hf, hd])]
    · rw [colFor, List.find?_cons_of_neg _ (by simpa using hd)] at h
      rw [updateNamed, if_neg hd, colFor, List.find?_cons_of_neg _ (by simpa using hd)]
      exact ih h

/-- Other lookups pass through updateNamed when the mutation keeps names. -/
theorem colFor_updateNamed_other {cols : List snellerColumn} {n n' : String}
    (f : snellerColumn → snellerColumn) (hf : ∀ c, (f c).Name = c.Name)
    (hne : n' ≠ n) :
    colFor (updateNamed n f cols) n' = colFor cols n' := by
  induction cols with
  | nil => rfl
  | cons d rest ih =>
    by_cases hd : d.Name = n
    · have hfd : ((f d).Name = n') = False := by
        rw [hf d, hd]
        exact eq_false (Ne.symm hne)
      have hdd : (d.Name = n') = False := by
        rw [hd]
        exact eq_false (Ne.symm hne)
      rw [updateNamed, if_pos hd, colFor, colFor,
        List.find?_cons_of_neg _ (by simp [hfd]),
        List.find?_cons_of_neg _ (by simp [hdd])]
    · rw [updateNamed, if_neg hd, colFor, colFor]
      cases hdn : decide (d.Name = n') with
      | true =>
        rw [List.find?_cons_of_pos _ (by simpa using hdn),
          List.find?_cons_of_pos _ (by simpa using hdn)]
      | false =>
        rw [List.find?_cons_of_neg _ (by simpa using hdn),
          List.find?_cons_of_neg _ (by simpa using hdn)]
        exact ih

/-- A lookup miss means no column bears the name. -/
theorem not_mem_of_colFor_none {cols : List snellerColumn} {n : String}
    (h : colFor cols n = none) : ∀ c ∈ cols, c.Name ≠ n := by
  intro c hc
  have := List.find?_eq_none.mp h c hc
  simpa using this

/-- analyzeField keeps the running row count. -/
theorem analyzeField_rowCount (s : SchemaState) (i : Nat) (n : String) (it : IonType) :
    (analyzeField s i n it).rowCount = s.rowCount := by
  unfold analyzeField
  cases colFor s.cols n <;> rfl

/-- The attribute view of a fresh column is freshAttrs. -/
theorem attrsOf_freshColumn (s : SchemaState) (i : Nat) (n : String) (it : IonType) :
    attrsOf (freshColumn s i n it) = freshAttrs s.rowCount it := by
  simp [attrsOf, freshColumn, freshAttrs]

/-- The per-name attribute effect of analyzeField on the looked-up name. -/
theorem colFor_analyzeField_self (s : SchemaState) (i : Nat) (n : String) (it : IonType) :
    (colFor (analyzeField s i n it).cols n).map attrsOf
      = some (match (colFor s.cols n).map attrsOf with
              | some a => stepAttrs a it
              | none => stepAttrs (freshAttrs s.rowCount it) it) := by
  unfold analyzeField
  cases hc : colFor s.cols n with
  | some c =>
    dsimp only
    rw [colFor_updateNamed_self _ (fun c => updateColumn_Name c i it) hc]
    simp [attrs_updateColumn]
  | none =>
    dsimp only
    have hu : (updateColumn (freshColumn s i n it) i it).Name = n := by
      rw [updateColumn_Name]
      rfl
    have h0 : List.find? (fun c => decide (c.Name = n)) s.cols = none := hc
    have hfind : colFor (s.cols ++ [updateColumn (freshColumn s i n it) i it]) n
        = some (updateColumn (freshColumn s i n it) i it) := by
      rw [colFor, List.find?_append, h0]
      simp [hu]
    rw [hfind, Option.map_some', attrs_updateColumn, attrsOf_freshColumn]
    rfl

/-- analyzeField leaves other names untouched. -/
theorem colFor_analyzeField_other (s : SchemaState) (i : Nat) {n n' : String}
    (hne : n' ≠ n) (it : IonType) :
    colFor (analyzeField s i n it).cols n' = colFor s.cols n' := by
  unfold analyzeField
  cases hc : colFor s.cols n with
  | some c =>
    dsimp only
    exact colFor_updateNamed_other _ (fun c => updateColumn_Name c i it) hne
  | none =>
    dsimp only
    have hu : (updateColumn (freshColumn s i n it) i it).Name = n := by
      rw [updateColumn_Name]
      rfl
    have h2 : List.find? (fun c => decide (c.Name = n'))
        [updateColumn (freshColumn s i n it) i it] = none := by
      rw [List.find?_cons_of_neg _ (by simp [hu]; exact Ne.symm hne)]
      rfl
    rw [colFor, List.find?_append, h2, colFor]
    simp

/-- Unfolding obsOf over one field. -/
theorem obsOf_cons (n : String) (v : IonValue) (rest : List (String × IonValue))
    (name : String) :
    obsOf ((n, v) :: rest) name
      = if n = name then v.typeOf :: obsOf rest name else obsOf rest name := by
  unfold obsOf
  by_cases h : n = name <;> simp [List.filterMap_cons, h]

/-- The field loop keeps the running row count. -/
theorem analyzeFields_rowCount (row : List (String × IonValue)) :
    ∀ (s : SchemaState) (i : Nat), (analyzeFields s i row).rowCount = s.rowCount := by
  induction row with
  | nil => intro s i; rfl
  | cons f rest ih =>
    intro s i
    rw [analyzeFields, ih, analyzeField_rowCount]

/-- The per-name attribute effect of one row is applyObs over its
observations. -/
theorem colFor_analyzeFields (row : List (String × IonValue)) :
    ∀ (s : SchemaState) (i : Nat) (name : String),
    (colFor (analyzeFields s i row).cols name).map attrsOf
      = applyObs ((colFor s.cols name).map attrsOf) s.rowCount (obsOf row name) := by
  induction row with
  | nil => intro s i name; rfl
  | cons f rest ih =>
    intro s i name
    obtain ⟨n, v⟩ := f
    rw [analyzeFields, obsOf_cons, ih, analyzeField_rowCount]
    by_cases h : n = name
    · subst h
      rw [if_pos rfl, colFor_analyzeField_self]
      cases (colFor s.cols n).map attrsOf <;> rfl
    · rw [if_neg h, colFor_analyzeField_other s i (fun hh => h hh.symm) v.typeOf]

/-- The first pass counts the rows. -/
theorem runRows_rowCount (rows : List (List (String × IonValue))) :
    ∀ s : SchemaState, (runRows s rows).rowCount = s.rowCount + rows.length := by
  induction rows with
  | nil => intro s; simp [runRows]
  | cons r rest ih =>
    intro s
    rw [runRows, ih, analyzeRow, analyzeFields_rowCount]
    simp
    try omega

/-- The per-name attribute effect of the whole pass is rowsApply. -/
theorem colFor_runRows (rows : List (List (String × IonValue))) :
    ∀ (s : SchemaState) (name : String),
    (colFor (runRows s rows).cols name).map attrsOf
      = rowsApply ((colFor s.cols name).map attrsOf) s.rowCount name rows := by
  induction rows with
  | nil => intro s name; rfl
  | cons r rest ih =>
    intro s name
    rw [runRows, ih, rowsApply, analyzeRow, analyzeFields_rowCount, colFor_analyzeFields]

theorem obsAll_cons (r : List (String × IonValue)) (rows : List (List (String × IonValue)))
    (name : String) : obsAll (r :: rows) name = obsOf r name ++ obsAll rows name := by
  simp [obsAll]

/-- rowsApply extends an existing closed form by all later observations. -/
theorem rowsApply_some (rows : List (List (String × IonValue))) :
    ∀ (l : List IonType) (flag : Bool) (rc : Nat) (name : String), l ≠ [] →
    rowsApply (some (closedForm l flag)) rc name rows
      = some (closedForm (l ++ obsAll rows name) flag) := by
  induction rows with
  | nil => intro l flag rc name _; simp [rowsApply, obsAll]
  | cons r rest ih =>
    intro l flag rc name hl
    rw [rowsApply, applyObs_some_closedForm _ _ _ _ hl,
      ih _ _ _ _ (fun hh => hl (List.append_eq_nil.mp hh).1), obsAll_cons,
      List.append_assoc]

/-- rowsApply from an absent column at a row count of at least one: any
later creation is optional. -/
theorem rowsApply_none_pos (rows : List (List (String × IonValue))) :
    ∀ (rc : Nat) (name : String), 1 ≤ rc →
    rowsApply none rc name rows
      = if obsAll rows name = [] then none
        else some (closedForm (obsAll rows name) true) := by
  induction rows with
  | nil => intro rc name _; simp [rowsApply, obsAll]
  | cons r rest ih =>
    intro rc name h
    rw [rowsApply, applyObs_none, obsAll_cons]
    by_cases ho : obsOf r name = []
    · rw [if_pos ho, ih _ _ (by omega), ho]
      simp
    · rw [if_neg ho, (show decide (rc + 1 ≠ 1) = true by simp; omega),
        rowsApply_some rest _ _ _ _ ho, if_neg (by simp [ho])]

/-- The closed characterization of the whole pass from the initial state:
the column exists when the name was observed, and its attributes are the
closed form of all observations, optional at creation exactly when the
first row lacks the name. -/
theorem rowsApply_zero (rows : List (List (String × IonValue))) (name : String) :
    rowsApply none 0 name rows
      = if obsAll rows name = [] then none
        else some (closedForm (obsAll rows name)
            (decide (obsOf (rows.headD []) name = []))) := by
  cases rows with
  | nil => simp [rowsApply, obsAll]
  | cons r rest =>
    rw [rowsApply, applyObs_none, obsAll_cons]
    simp only [List.headD_cons]
    by_cases ho : obsOf r name = []
    · rw [if_pos ho, rowsApply_none_pos rest 1 name (by omega)]
      simp [ho]
    · rw [if_neg ho, (show decide ((0 : Nat) + 1 ≠ 1) = false by simp),
        rowsApply_some rest _ _ _ _ ho, if_neg (by simp [ho])]
      simp [ho]

/-- The first pass over a well-formed stream (non-empty rows followed by a
final_status envelope) runs runRows and returns the unmarshalled status. -/
theorem iterateRows_good (rows : List (List (String × IonValue)))
    {fsf : List (String × IonValue)} {st : snellerFinalStatus}
    (hfs : unmarshalFinalStatus fsf = .ok st) :
    ∀ (s : SchemaState) (i : Nat), (∀ r ∈ rows, r ≠ []) →
    iterateRows analyzeCb (rows.map rowItem ++ [fsItem fsf]) s i none
      = (runRows s rows, .ok st) := by
  induction rows with
  | nil =>
    intro s i _
    rw [List.map_nil, List.nil_append]
    have h1 : iterateRows analyzeCb [fsItem fsf] s i none
        = match unmarshalFinalStatus fsf with
          | .error e => (s, .error (.goError e))
          | .ok fs => iterateRows analyzeCb [] s i (some fs) := rfl
    rw [h1, hfs]
    rfl
  | cons r rest ih =>
    intro s i hne
    obtain ⟨f0, rtail, hr⟩ : ∃ f0 rtail, r = f0 :: rtail := by
      cases hcr : r with
      | nil => exact absurd hcr (hne r (List.mem_cons_self r rest))
      | cons a b => exact ⟨a, b, rfl⟩
    have h1 : iterateRows analyzeCb (rowItem r :: (rest.map rowItem ++ [fsItem fsf])) s i none
        = iterateRows analyzeCb (rest.map rowItem ++ [fsItem fsf])
            (analyzeRow { s with rowCount := s.rowCount + 1 } r) (i + 1) none := by
      subst hr
      rfl
    rw [List.map_cons, List.cons_append, h1,
      ih _ _ (fun x hx => hne x (List.mem_cons_of_mem r hx)), runRows]

/-- The whole of deriveSchema over a well-formed stream, unfolded. -/
theorem deriveSchema_good (rows : List (List (String × IonValue)))
    {fsf : List (String × IonValue)} {st : snellerFinalStatus}
    (hne : ∀ r ∈ rows, r ≠ [])
    (hfs : unmarshalFinalStatus fsf = .ok st) :
    deriveSchema (rows.map rowItem ++ [fsItem fsf])
      = (let s := runRows { rowCount := 0, cols := [] } rows
         let cols := s.cols.map (fun c =>
           if c.Count ≠ s.rowCount then { c with Optional := true } else c)
         match st.ResultSet with
         | none => .ok { RowCount := s.rowCount, Columns := cols, FinalStatus := some st }
         | some (.struct fs2) =>
             .ok { RowCount := s.rowCount,
                   Columns := restoreOrder cols (fs2.map Prod.fst),
                   FinalStatus := some st }
         | some _ => .error (.goError "ion: cannot unpack datum into struct")) := by
  unfold deriveSchema
  rw [iterateRows_good rows hfs _ _ hne]
  dsimp only
  cases st.ResultSet with
  | none => rfl
  | some ds => cases ds <;> rfl

/-- A name-preserving mutation keeps the name list. -/
theorem updateNamed_map_name (n : String) (f : snellerColumn → snellerColumn)
    (hf : ∀ c, (f c).Name = c.Name) :
    ∀ cols : List snellerColumn,
    (updateNamed n f cols).map snellerColumn.Name = cols.map snellerColumn.Name := by
  intro cols
  induction cols with
  | nil => rfl
  | cons d rest ih =>
    by_cases hd : d.Name = n
    · rw [updateNamed, if_pos hd, List.map_cons, List.map_cons, hf]
    · rw [updateNamed, if_neg hd, List.map_cons, List.map_cons, ih]

/-- analyzeField keeps column names pairwise distinct. -/
theorem nodupNames_analyzeField (s : SchemaState) (i : Nat) (n : String) (it : IonType)
    (h : (s.cols.map snellerColumn.Name).Nodup) :
    ((analyzeField s i n it).cols.map snellerColumn.Name).Nodup := by
  unfold analyzeField
  cases hc : colFor s.cols n with
  | some c =>
    dsimp only
    rw [updateNamed_map_name _ _ (fun c => updateColumn_Name c i it)]
    exact h
  | none =>
    dsimp only
    rw [List.map_append, List.nodup_append]
    refine ⟨h, by simp, ?_⟩
    intro a ha hb
    have hun : (updateColumn (freshColumn s i n it) i it).Name = n := by
      rw [updateColumn_Name]
      rfl
    simp only [List.map_cons, List.map_nil, List.mem_cons, List.not_mem_nil, or_false] at hb
    obtain ⟨c, hcmem, hcn⟩ := List.mem_map.mp ha
    exact not_mem_of_colFor_none hc c hcmem (hcn.trans (hb.trans hun))

theorem nodupNames_analyzeFields (row : List (String × IonValue)) :
    ∀ (s : SchemaState) (i : Nat), (s.cols.map snellerColumn.Name).Nodup →
    ((analyzeFields s i row).cols.map snellerColumn.Name).Nodup := by
  induction row with
  | nil => intro s i h; exact h
  | cons f rest ih =>
    intro s i h
    rw [analyzeFields]
    exact ih _ _ (nodupNames_analyzeField s i f.1 f.2.typeOf h)

theorem nodupNames_runRows (rows : List (List (String × IonValue))) :
    ∀ s : SchemaState, (s.cols.map snellerColumn.Name).Nodup →
    ((runRows s rows).cols.map snellerColumn.Name).Nodup := by
  induction rows with
  | nil => intro s h; exact h
  | cons r rest ih =>
    intro s h
    rw [runRows]
    exact ih _ (nodupNames_analyzeFields r _ 0 h)

/-- A name-preserving map keeps the name list. -/
theorem map_name_of_preserving (g : snellerColumn → snellerColumn)
    (hg : ∀ c, (g c).Name = c.Name) (cols : List snellerColumn) :
    (cols.map g).map snellerColumn.Name = cols.map snellerColumn.Name := by
  rw [List.map_map]
  exact List.map_congr_left (fun c _ => hg c)

/-- applyLabels keeps the name list. -/
theorem applyLabels_map_name (labels : List String) :
    ∀ (cols : List snellerColumn) (i : Nat),
    (applyLabels cols labels i).map snellerColumn.Name = cols.map snellerColumn.Name := by
  induction labels with
  | nil => intro cols i; rfl
  | cons l rest ih =>
    intro cols i
    rw [applyLabels, ih,
      updateNamed_map_name l (fun c => { c with Index := (i : Int) }) (fun c => rfl)]

/-- updateNamed is the identity when no column bears the name. -/
theorem updateNamed_of_none {cols : List snellerColumn} {n : String}
    (h : colFor cols n = none) (f : snellerColumn → snellerColumn) :
    updateNamed n f cols = cols := by
  induction cols with
  | nil => rfl
  | cons d rest ih =>
    have hd : ¬d.Name = n := not_mem_of_colFor_none h d (List.mem_cons_self d rest)
    rw [updateNamed, if_neg hd]
    congr 1
    apply ih
    rw [colFor] at h
    rw [List.find?_cons_of_neg _ (by simpa using hd)] at h
    exact h

/-- An untouched name looks up the same column before and after
applyLabels. -/
theorem colFor_applyLabels_attrs (labels : List String) :
    ∀ (cols : List snellerColumn) (i : Nat) (name : String),
    (colFor (applyLabels cols labels i) name).map attrsOf
      = (colFor cols name).map attrsOf := by
  induction labels with
  | nil => intro cols i name; rfl
  | cons l rest ih =>
    intro cols i name
    rw [applyLabels, ih]
    by_cases h : name = l
    · subst h
      cases hc : colFor cols name with
      | none => rw [updateNamed_of_none hc, hc]
      | some c =>
        rw [colFor_updateNamed_self (fun c => { c with Index := (i : Int) })
          (fun c => rfl) hc]
        rfl
    · rw [colFor_updateNamed_other (fun c => { c with Index := (i : Int) })
        (fun c => rfl) h]

/-- Lookup is stable under permutation when names are pairwise distinct. -/
theorem colFor_perm {cols₁ cols₂ : List snellerColumn}
    (hp : cols₁.Perm cols₂) (hn : (cols₁.map snellerColumn.Name).Nodup) (name : String) :
    colFor cols₁ name = colFor cols₂ name := by
  cases h1 : colFor cols₁ name with
  | none =>
    have hno := List.find?_eq_none.mp h1
    symm
    rw [colFor, List.find?_eq_none]
    intro x hx
    exact hno x (hp.symm.subset hx)
  | some c =>
    have hcmem : c ∈ cols₁ := List.mem_of_find?_eq_some h1
    have hcp : c.Name = name := by simpa using List.find?_some h1
    cases h2 : colFor cols₂ name with
    | none =>
      have := List.find?_eq_none.mp h2 c (hp.subset hcmem)
      simp [hcp] at this
    | some c' =>
      have hmem' : c' ∈ cols₂ := List.mem_of_find?_eq_some h2
      have hcp' : c'.Name = name := by simpa using List.find?_some h2
      have hmem'1 : c' ∈ cols₁ := hp.symm.subset hmem'
      have hcc : c = c' :=
        List.inj_on_of_nodup_map hn hcmem hmem'1 (by rw [hcp, hcp'])
      rw [hcc]

/-- Bool any is permutation invariant. -/
theorem any_perm {α : Type} {l₁ l₂ : List α} (h : l₁.Perm l₂) (p : α → Bool) :
    l₁.any p = l₂.any p := by
  cases hb : l₂.any p with
  | true =>
    rw [List.any_eq_true] at hb ⊢
    obtain ⟨x, hx, hpx⟩ := hb
    exact ⟨x, h.symm.subset hx, hpx⟩
  | false =>
    rw [List.any_eq_false] at hb ⊢
    intro x hx
    exact hb x (h.subset hx)

/-- The resolved union type is permutation invariant. -/
theorem resolveTyp_perm {l₁ l₂ : List snellerColumnType} (h : l₁.Perm l₂) :
    resolveTyp l₁ = resolveTyp l₂ := by
  have hf : (l₁.filter (fun t => decide (t ≠ .null))).Perm
      (l₂.filter (fun t => decide (t ≠ .null))) := h.filter _
  cases h1 : l₁.filter (fun t => decide (t ≠ .null)) with
  | nil =>
    have h2 : l₂.filter (fun t => decide (t ≠ .null)) = [] := by
      rw [h1] at hf
      exact (List.nil_perm.mp hf)
    rw [resolveTyp_of_filter_nil h1, resolveTyp_of_filter_nil h2]
  | cons t r1 =>
    cases h2 : l₂.filter (fun t => decide (t ≠ .null)) with
    | nil =>
      rw [h1, h2] at hf
      exact absurd (List.perm_nil.mp hf) (by simp)
    | cons u r2 =>
      rw [resolveTyp_of_filter_cons h1, resolveTyp_of_filter_cons h2]
      rw [h1, h2] at hf
      by_cases hall1 : r1.all (fun x => decide (x = t)) = true
      · have hallm : ∀ x ∈ u :: r2, x = t := by
          intro x hx
          rcases List.mem_cons.mp (hf.symm.subset hx) with hh | hh
          · exact hh
          · simpa using (List.all_eq_true.mp hall1) x hh
        have hu : u = t := hallm u (List.mem_cons_self u r2)
        have hall2 : r2.all (fun y => decide (y = u)) = true := by
          rw [List.all_eq_true]
          intro y hy
          simp [hu, hallm y (List.mem_cons_of_mem u hy)]
        rw [if_pos hall1, if_pos hall2, hu]
      · obtain ⟨x, hx, hxt⟩ : ∃ x ∈ r1, x ≠ t := by
          by_contra hcon
          push_neg at hcon
          exact hall1 (List.all_eq_true.mpr (fun y hy => by simpa using hcon y hy))
        have hxm : x ∈ u :: r2 := hf.subset (List.mem_cons_of_mem t hx)
        have htm : t ∈ u :: r2 := hf.subset (List.mem_cons_self t r1)
        have hall2 : ¬(r2.all (fun y => decide (y = u)) = true) := by
          intro hall2
          have hu : ∀ y ∈ u :: r2, y = u := by
            intro y hy
            rcases List.mem_cons.mp hy with hh | hh
            · exact hh
            · simpa using (List.all_eq_true.mp hall2) y hh
          exact hxt ((hu x hxm).trans (hu t htm).symm)
        rw [if_neg hall1, if_neg hall2]

/-- Lookup commutes with a name-preserving map. -/
theorem colFor_map {cols : List snellerColumn} (g : snellerColumn → snellerColumn)
    (hg : ∀ c, (g c).Name = c.Name) (name : String) :
    colFor (cols.map g) name = (colFor cols name).map g := by
  induction cols with
  | nil => rfl
  | cons d rest ih =>
    by_cases hd : d.Name = name
    · rw [List.map_cons, colFor, List.find?_cons_of_pos _ (by simp [hg, hd]),
        colFor, List.find?_cons_of_pos _ (by simpa using hd)]
      rfl
    · rw [List.map_cons, colFor, List.find?_cons_of_neg _ (by simp [hg, hd]),
        colFor, List.find?_cons_of_neg _ (by simpa using hd)]
      exact ih

/-- Lookup through the optional-marking map: the closed form with the
markOpt step applied. -/
theorem colFor_marked (rows : List (List (String × IonValue))) (name : String) :
    (colFor ((runRows { rowCount := 0, cols := [] } rows).cols.map
        (fun c => if c.Count ≠ (runRows { rowCount := 0, cols := [] } rows).rowCount
                  then { c with Optional := true } else c)) name).map attrsOf
      = if obsAll rows name = [] then none
        else some (markOpt (closedForm (obsAll rows name)
            (decide (obsOf (rows.headD []) name = []))) rows.length) := by
  have hrc : (runRows { rowCount := 0, cols := [] } rows).rowCount = rows.length := by
    rw [runRows_rowCount]
    simp
  rw [colFor_map _ (fun c => by split_ifs <;> rfl) name, Option.map_map]
  have hcomp : (attrsOf ∘ fun c =>
      if c.Count ≠ (runRows { rowCount := 0, cols := [] } rows).rowCount
      then { c with Optional := true } else c)
      = (fun a => markOpt a rows.length) ∘ attrsOf := by
    funext c
    simp only [Function.comp_apply]
    rw [markOpt, ← hrc]
    dsimp only [attrsOf]
    split_ifs <;> rfl
  rw [hcomp, ← Option.map_map]
  have hchar := colFor_runRows rows { rowCount := 0, cols := [] } name
  rw [hchar]
  have h0 : rowsApply ((colFor ({ rowCount := 0, cols := [] } : SchemaState).cols name).map
      attrsOf) ({ rowCount := 0, cols := [] } : SchemaState).rowCount name rows
      = rowsApply none 0 name rows := rfl
  rw [h0, rowsApply_zero]
  by_cases hobs : obsAll rows name = []
  · rw [if_pos hobs, if_pos hobs]
    rfl
  · rw [if_neg hobs, if_neg hobs]
    rfl

/-- deriveSchema over a well-formed stream succeeds and resolves every
column to the marked closed form of its observations. -/
theorem deriveSchema_attrs (rows : List (List (String × IonValue)))
    {fsf : List (String × IonValue)} {st : snellerFinalStatus}
    (hne : ∀ r ∈ rows, r ≠ [])
    (hfs : unmarshalFinalStatus fsf = .ok st)
    (hrs : st.ResultSet = none ∨ ∃ fields, st.ResultSet = some (.struct fields)) :
    ∃ sch, deriveSchema (rows.map rowItem ++ [fsItem fsf]) = .ok sch ∧
      sch.RowCount = rows.length ∧
      ∀ name, (colFor sch.Columns name).map attrsOf
        = if obsAll rows name = [] then none
          else some (markOpt (closedForm (obsAll rows name)
              (decide (obsOf (rows.headD []) name = []))) rows.length) := by
  have hnames : (((runRows { rowCount := 0, cols := [] } rows).cols.map
      (fun c => if c.Count ≠ (runRows { rowCount := 0, cols := [] } rows).rowCount
                then { c with Optional := true } else c)).map snellerColumn.Name).Nodup := by
    rw [map_name_of_preserving _ (fun c => by split_ifs <;> rfl)]
    exact nodupNames_runRows rows _ (by simp)
  rcases hrs with hrs | ⟨fields, hrs⟩
  · refine ⟨{ RowCount := (runRows { rowCount := 0, cols := [] } rows).rowCount,
              Columns := (runRows { rowCount := 0, cols := [] } rows).cols.map
                (fun c => if c.Count ≠ (runRows { rowCount := 0, cols := [] } rows).rowCount
                          then { c with Optional := true } else c),
              FinalStatus := some st }, ?_, ?_, ?_⟩
    · rw [deriveSchema_good rows hne hfs]
      dsimp only
      rw [hrs]
    · dsimp only
      rw [runRows_rowCount]
      simp
    · intro name
      dsimp only
      exact colFor_marked rows name
  · refine ⟨{ RowCount := (runRows { rowCount := 0, cols := [] } rows).rowCount,
              Columns := restoreOrder ((runRows { rowCount := 0, cols := [] } rows).cols.map
                (fun c => if c.Count ≠ (runRows { rowCount := 0, cols := [] } rows).rowCount
                          then { c with Optional := true } else c)) (fields.map Prod.fst),
              FinalStatus := some st }, ?_, ?_, ?_⟩
    · rw [deriveSchema_good rows hne hfs]
      dsimp only
      rw [hrs]
    · dsimp only
      rw [runRows_rowCount]
      simp
    · intro name
      dsimp only
      rw [restoreOrder]
      have hnd2 : ((applyLabels ((runRows { rowCount := 0, cols := [] } rows).cols.map
          (fun c => if c.Count ≠ (runRows { rowCount := 0, cols := [] } rows).rowCount
                    then { c with Optional := true } else c)) (fields.map Prod.fst) 0).map
          snellerColumn.Name).Nodup := by
        rw [applyLabels_map_name]
        exact hnames
      have hperm := List.perm_insertionSort idxLe
        (applyLabels ((runRows { rowCount := 0, cols := [] } rows).cols.map
          (fun c => if c.Count ≠ (runRows { rowCount := 0, cols := [] } rows).rowCount
                    then { c with Optional := true } else c)) (fields.map Prod.fst) 0)
      have hndSorted := (hperm.map snellerColumn.Name).nodup_iff.mpr hnd2
      rw [colFor_perm hperm hndSorted name, colFor_applyLabels_attrs]
      exact colFor_marked rows name

/-- A name absent from a row observes nothing. -/
theorem obsOf_eq_nil_of_not_mem (r : List (String × IonValue)) (name : String)
    (h : name ∉ r.map Prod.fst) : obsOf r name = [] := by
  induction r with
  | nil => rfl
  | cons f rest ih =>
    obtain ⟨n, v⟩ := f
    rw [List.map_cons, List.mem_cons] at h
    push_neg at h
    rw [obsOf_cons, if_neg (fun hh => h.1 hh.symm)]
    exact ih h.2

/-- With distinct field names a row observes each name at most once. -/
theorem obsOf_length_le_one (r : List (String × IonValue)) (name : String)
    (h : (r.map Prod.fst).Nodup) : (obsOf r name).length ≤ 1 := by
  induction r with
  | nil => simp [obsOf]
  | cons f rest ih =>
    obtain ⟨n, v⟩ := f
    rw [List.map_cons, List.nodup_cons] at h
    rw [obsOf_cons]
    by_cases hn : n = name
    · subst hn
      rw [if_pos rfl, obsOf_eq_nil_of_not_mem rest n h.1]
      simp
    · rw [if_neg hn]
      exact ih h.2

/-- A name present in a row is observed. -/
theorem obsOf_ne_nil_of_mem (r : List (String × IonValue)) (name : String)
    (h : ∃ f ∈ r, f.1 = name) : obsOf r name ≠ [] := by
  obtain ⟨f, hf, hname⟩ := h
  have hmem : f.2.typeOf ∈ obsOf r name := by
    unfold obsOf
    exact List.mem_filterMap.mpr ⟨f, hf, by rw [if_pos hname]⟩
  intro hnil
  rw [hnil] at hmem
  exact absurd hmem (List.not_mem_nil _)

/-- With distinct per-row field names, observations never outnumber rows. -/
theorem obsAll_length_le (rows : List (List (String × IonValue))) (name : String)
    (hnd : ∀ r ∈ rows, (r.map Prod.fst).Nodup) :
    (obsAll rows name).length ≤ rows.length := by
  induction rows with
  | nil => simp [obsAll]
  | cons r rest ih =>
    rw [obsAll_cons, List.length_append, List.length_cons]
    have h1 := obsOf_length_le_one r name (hnd r (List.mem_cons_self r rest))
    have h2 := ih (fun x hx => hnd x (List.mem_cons_of_mem r hx))
    omega

/-- When the observation count reaches the row count under distinct per-row
names, every row observes the name. -/
theorem obs_each_of_count_eq (rows : List (List (String × IonValue))) (name : String)
    (hnd : ∀ r ∈ rows, (r.map Prod.fst).Nodup)
    (hlen : (obsAll rows name).length = rows.length) :
    ∀ r ∈ rows, obsOf r name ≠ [] := by
  induction rows with
  | nil => simp
  | cons r rest ih =>
    rw [obsAll_cons, List.length_append, List.length_cons] at hlen
    have h1 := obsOf_length_le_one r name (hnd r (List.mem_cons_self r rest))
    have h2 := obsAll_length_le rest name (fun x hx => hnd x (List.mem_cons_of_mem r hx))
    intro x hx
    rcases List.mem_cons.mp hx with hh | hh
    · subst hh
      intro hnil
      rw [hnil] at hlen
      simp at hlen
      omega
    · exact ih (fun y hy => hnd y (List.mem_cons_of_mem r hy)) (by omega) x hh

/-- When every row observes the name, the counts agree. -/
theorem obsAll_length_eq_of_all (rows : List (List (String × IonValue))) (name : String)
    (hnd : ∀ r ∈ rows, (r.map Prod.fst).Nodup)
    (hall : ∀ r ∈ rows, obsOf r name ≠ []) :
    (obsAll rows name).length = rows.length := by
  induction rows with
  | nil => simp [obsAll]
  | cons r rest ih =>
    rw [obsAll_cons, List.length_append, List.length_cons,
      ih (fun x hx => hnd x (List.mem_cons_of_mem r hx))
         (fun x hx => hall x (List.mem_cons_of_mem r hx))]
    have h1 := obsOf_length_le_one r name (hnd r (List.mem_cons_self r rest))
    have h2 := hall r (List.mem_cons_self r rest)
    have h3 : 1 ≤ (obsOf r name).length := by
      cases hc : obsOf r name with
      | nil => exact absurd hc h2
      | cons a b => simp
    omega

/-- C1: during schema derivation, analyzeRow updates a column's running type
state by the union rule (query.go, lines 466-480): a newly observed null
marks the column nullable and keeps its type; a non-null observation on a
null-typed column adopts the new type; two differing non-null types resolve
to the unknown conflict sentinel.  The hypothesis is the reachable-state
invariant that a null-typed column is already marked nullable (true from
creation on). -/
theorem c1_union_rule (col : snellerColumn) (index : Nat) (ityp : IonType)
    (hinv : col.Typ = .null → col.Nullable = true) :
    (snellerType ityp = .null →
      (updateColumn col index ityp).Nullable = true ∧
      (updateColumn col index ityp).Typ = col.Typ) ∧
    (col.Typ = .null → snellerType ityp ≠ .null →
      (updateColumn col index ityp).Typ = snellerType ityp) ∧
    (col.Typ ≠ .null → snellerType ityp ≠ .null → snellerType ityp ≠ col.Typ →
      (updateColumn col index ityp).Typ = .unknown) := by
  have h := attrs_updateColumn col index ityp
  have hN : (updateColumn col index ityp).Nullable
      = stepNullable col.Typ col.Nullable (snellerType ityp) := congrArg ColAttrs.nullable h
  have hT : (updateColumn col index ityp).Typ
      = stepTyp col.Typ (snellerType ityp) := congrArg ColAttrs.typ h
  refine ⟨fun hnull => ⟨?_, ?_⟩, fun h1 h2 => ?_, fun h1 h2 h3 => ?_⟩
  · rw [hN]; unfold stepNullable
    split_ifs with hc
    · rfl
    · rw [not_and_or] at hc
      rcases hc with hc | hc
      · rw [not_not] at hc
        exact hinv (by rw [← hc]; exact hnull)
      · exact absurd hnull hc
  · rw [hT]; unfold stepTyp
    split_ifs <;> simp_all
  · rw [hT]; unfold stepTyp
    split_ifs <;> simp_all
  · rw [hT]; unfold stepTyp
    split_ifs <;> simp_all

/-- Witness for c1_union_rule at a text column observing a null value. -/
theorem c1_union_rule_witness :
    (c1Col.Typ = .null → c1Col.Nullable = true) ∧
    ((updateColumn c1Col 0 .null).Nullable = true ∧
      (updateColumn c1Col 0 .null).Typ = c1Col.Typ) :=
  ⟨by decide, (c1_union_rule c1Col 0 .null (by decide)).1 rfl⟩

/-- C4 counterexample: on a stream holding a query_error envelope followed by
a data row and a final_status envelope, the iteration does not treat the
failure envelope as terminal (the per-row callback still runs, once) and does
not return the failure as its status result: it returns the zero success
envelope, whose error text is empty rather than the wrapped message. -/
theorem c4_query_error_counterexample :
    (iterateRows countCb c4Stream 0 0 none).1 = 1 ∧
    (iterateRows countCb c4Stream 0 0 none).2 = .ok zeroFinalStatus ∧
    zeroFinalStatus.Error = "" :=
  ⟨rfl, rfl, rfl⟩

/-- C4 amended: the Row Iterator decodes a query_error annotated struct into
the failure struct and discards it: iteration continues with unchanged state,
index and (absent) recorded status, the callback is not invoked on it, and
the failure is never returned -- the status result can only come from a
final_status envelope. -/
theorem c4_query_error_skipped {σ : Type}
    (cb : σ → Nat → List (String × IonValue) → σ × Except DErr Unit)
    (msg : String) (rest : List TopValue) (s : σ) (i : Nat) :
    iterateRows cb (qeItem msg :: rest) s i none = iterateRows cb rest s i none := by
  rfl

/-- C2 counterexample: c2StreamA and c2StreamB carry the same multiset of
rows (one row holding x twice, one row holding y once) and the same terminal
envelope, yet the resolved descriptor of column x differs between the two
orders: its optional flag is false in one order and true in the other. -/
theorem c2_perm_counterexample :
    ((deriveSchema c2StreamA).map (fun s => (colFor s.Columns "x").map snellerColumn.Optional))
      = .ok (some false) ∧
    ((deriveSchema c2StreamB).map (fun s => (colFor s.Columns "x").map snellerColumn.Optional))
      = .ok (some true) :=
  ⟨rfl, rfl⟩

/-- C3 counterexample: in the one-row stream whose row holds x twice, x is
present in every row (and absent in none), yet the pass marks it optional,
because its observation count 2 differs from the row count 1. -/
theorem c3_optional_counterexample :
    (deriveSchema c3Stream).map
        (fun s => (s.RowCount, (colFor s.Columns "x").map (fun c => (c.Optional, c.Count))))
      = .ok (1, some (true, 2)) :=
  rfl

/-- C7 counterexample: on c7Stream the column p is not named by the
result_set list while q is, yet p sorts before q (ordinal -1 sorts first
under the ascending sort, not last); and on c7StreamOne the unlisted column
p keeps its first-seen ordinal 0, not -1. -/
theorem c7_reorder_counterexample :
    ((deriveSchema c7Stream).map (fun s => s.Columns.map (fun c => (c.Name, c.Index))))
      = .ok [("p", -1), ("q", 0)] ∧
    ((deriveSchema c7StreamOne).map (fun s => (colFor s.Columns "p").map snellerColumn.Index))
      = .ok (some 0) :=
  ⟨rfl, rfl⟩

/-- C6: the error of the second (value-population) pass is dropped by
frameFromSnellerResult.  On c6Stream the schema pass succeeds (x resolves to
a signed non-floating number), the second pass fails on the first row with
the int/uint type mismatch, and frameFromSnellerResult nevertheless returns
a frame whose x column holds only unwritten cells, instead of surfacing the
error. -/
theorem c6_second_pass_error_dropped :
    (frameFromSnellerResult noParse "A" "sql" c6Stream "").map Frame.fields
      = .ok [("x", [none, none])] ∧
    ((deriveSchema c6Stream).map (fun sch =>
        (mkFieldVals noParse sch "").map (fun fvs => (secondPass c6Stream fvs).2)))
      = .ok (.ok (.error (.goError "expected \x27int\x27 type, got \x27uint\x27"))) :=
  ⟨rfl, rfl⟩

/-- C8: the time-field mapping of grafanaFieldValues routes a non-floating
unsigned integer column to readTimeFromInt64, but that reader accepts only
int-tagged values (reader.ReadInt), so the uint-encoded values that made the
column unsigned can never be converted; the nullable unsigned combination is
rejected outright; only int-tagged values convert as millisecond epochs; and
the text path parses each string, failing on an unparsable one. -/
theorem c8_time_field_bug :
    grafanaType c8Column = .uint64 ∧
    (grafanaFieldValues noParse "t" 1 c8Column true).map fieldValues.read
      = .ok readTimeFromInt64 ∧
    readTimeFromInt64 (.uint 1612044000000)
      = .error (.goError "expected \x27int\x27 type, got \x27uint\x27") ∧
    readTimeFromInt64 (.int (-3)) = .ok (.vTime { millis := -3 }) ∧
    grafanaFieldValues noParse "t" 1 c8NullableColumn true
      = .error (.goError "unsupported field type for time field: *uint64") ∧
    readTimeFromString parseOne (.string "2021-01-30T22:00:00Z")
      = .ok (.vTime { millis := 1612044000000 }) ∧
    readTimeFromString parseOne (.string "not-a-time")
      = .error (.goError "parsing time \x27not-a-time\x27 as RFC3339: cannot parse") :=
  ⟨rfl, rfl, rfl, rfl, rfl, rfl, rfl⟩

/-- C9: when the first pass succeeds and the recorded terminal envelope
carries a non-empty error message, frameFromSnellerResult returns the error
that surfaces this message and never assembles a frame. -/
theorem c9_failure_envelope (parse : String → Option GoTime)
    (refID sql timeField : String) (items : List TopValue)
    (schema : snellerSchema) (fs : snellerFinalStatus)
    (hds : deriveSchema items = .ok schema)
    (hfs : schema.FinalStatus = some fs)
    (herr : fs.Error ≠ "") :
    frameFromSnellerResult parse refID sql items timeField
      = .error (.goError ("query execution failed: \x27" ++ fs.Error ++ "\x27")) := by
  unfold frameFromSnellerResult
  rw [hds]
  dsimp only
  rw [hfs]
  dsimp only
  rw [if_pos herr]

/-- Witness for c9_failure_envelope on a stream whose terminal envelope
carries the message boom. -/
theorem c9_failure_envelope_witness :
    deriveSchema [fsItem [("error", .string "boom")]]
      = .ok { RowCount := 0, Columns := [],
              FinalStatus := some { Hits := 0, Misses := 0, Scanned := 0,
                                    Error := "boom", ResultSet := none } } ∧
    ("boom" : String) ≠ "" ∧
    frameFromSnellerResult noParse "A" "q" [fsItem [("error", .string "boom")]] ""
      = .error (.goError "query execution failed: \x27boom\x27") :=
  ⟨rfl, by decide,
    c9_failure_envelope noParse "A" "q" "" [fsItem [("error", .string "boom")]]
      _ _ rfl rfl (by decide)⟩

/-- C10: readJSON dereferences the pointer produced by readJSONNullable even
when the latter failed and returned a nil pointer: on a value of an
unsupported ION type the value read fails, the pointer is nil, and readJSON
performs a nil dereference (a runtime panic); on supported values, null
included, the pointer is non-nil and the dereference is safe. -/
theorem c10_readJSON_nil_deref :
    readJSONNullable (.sexp []) = (none, some "unsupported ION type \x27sexp\x27") ∧
    readJSON (.sexp []) = .error .nilDeref ∧
    readJSON .null = .ok (.vJson { val := .null }) :=
  ⟨rfl, rfl, rfl⟩

/-- The closed form only depends on the multiset of observations and the
flag. -/
theorem closedForm_perm {o₁ o₂ : List IonType} (hobs : o₁.Perm o₂) {f₁ f₂ : Bool}
    (hf : f₁ = f₂) : closedForm o₁ f₁ = closedForm o₂ f₂ := by
  unfold closedForm
  rw [hf, resolveTyp_perm (hobs.map _),
    any_perm hobs (fun t => decide (t = IonType.null)),
    any_perm hobs (fun t => decide (t = IonType.float)),
    any_perm hobs (fun t => decide (t = IonType.int) || decide (t = IonType.float)),
    hobs.length_eq]

/-- The optional-marking step folds into the closed form's flag. -/
theorem markOpt_closedForm (o : List IonType) (f : Bool) (L : Nat) :
    markOpt (closedForm o f) L = closedForm o (if o.length ≠ L then true else f) := by
  unfold markOpt closedForm
  dsimp only
  split_ifs <;> rfl

/-- C2 amended: over streams of non-empty rows whose field names are
distinct within each row, the first pass is order independent: for any two
row sequences that are permutations of each other, followed by the same
terminal envelope, deriveSchema succeeds on both and resolves, for every
column name, identical type, nullable, optional, floating and signed flags
and observation counts; only the ordinals (and with them the column order)
may differ.  (Without the per-row distinctness the optional flag can depend
on the order: see the counterexample.) -/
theorem c2_perm_invariance (rows₁ rows₂ : List (List (String × IonValue)))
    (fsf : List (String × IonValue)) (st : snellerFinalStatus)
    (hperm : rows₁.Perm rows₂)
    (hne : ∀ r ∈ rows₁, r ≠ [])
    (hnd : ∀ r ∈ rows₁, (r.map Prod.fst).Nodup)
    (hfs : unmarshalFinalStatus fsf = .ok st)
    (hrs : st.ResultSet = none ∨ ∃ fields, st.ResultSet = some (.struct fields)) :
    isOkB (deriveSchema (rows₁.map rowItem ++ [fsItem fsf])) = true ∧
    isOkB (deriveSchema (rows₂.map rowItem ++ [fsItem fsf])) = true ∧
    ∀ name,
      (deriveSchema (rows₁.map rowItem ++ [fsItem fsf])).map
          (fun sch => (colFor sch.Columns name).map attrsOf)
        = (deriveSchema (rows₂.map rowItem ++ [fsItem fsf])).map
          (fun sch => (colFor sch.Columns name).map attrsOf) := by
  have hne₂ : ∀ r ∈ rows₂, r ≠ [] := fun r hr => hne r (hperm.symm.subset hr)
  have hnd₂ : ∀ r ∈ rows₂, (r.map Prod.fst).Nodup := fun r hr => hnd r (hperm.symm.subset hr)
  obtain ⟨sch₁, hds₁, hrc₁, hattr₁⟩ := deriveSchema_attrs rows₁ hne hfs hrs
  obtain ⟨sch₂, hds₂, hrc₂, hattr₂⟩ := deriveSchema_attrs rows₂ hne₂ hfs hrs
  refine ⟨by rw [hds₁]; rfl, by rw [hds₂]; rfl, ?_⟩
  intro name
  rw [hds₁, hds₂]
  simp only [Except.map]
  rw [hattr₁ name, hattr₂ name]
  have hobs : (obsAll rows₁ name).Perm (obsAll rows₂ name) := hperm.flatMap_right _
  have hlen12 : rows₁.length = rows₂.length := hperm.length_eq
  by_cases h1 : obsAll rows₁ name = []
  · have h2 : obsAll rows₂ name = [] := by
      rw [h1] at hobs
      exact List.nil_perm.mp hobs
    rw [if_pos h1, if_pos h2]
  · have h2 : obsAll rows₂ name ≠ [] := by
      intro hh
      rw [hh] at hobs
      exact h1 (List.perm_nil.mp hobs)
    rw [if_neg h1, if_neg h2]
    have hcnt : (obsAll rows₁ name).length = (obsAll rows₂ name).length := hobs.length_eq
    have htyp : resolveTyp ((obsAll rows₁ name).map snellerType)
        = resolveTyp ((obsAll rows₂ name).map snellerType) := resolveTyp_perm (hobs.map _)
    have hnul := any_perm hobs (fun t => decide (t = IonType.null))
    have hflo := any_perm hobs (fun t => decide (t = IonType.float))
    have hsig := any_perm hobs (fun t => decide (t = IonType.int) || decide (t = IonType.float))
    rw [← hlen12, markOpt_closedForm, markOpt_closedForm]
    refine congrArg Except.ok (congrArg some (closedForm_perm hobs ?_))
    rw [← hcnt]
    by_cases hc : (obsAll rows₁ name).length ≠ rows₁.length
    · rw [if_pos hc, if_pos hc]
    · rw [if_neg hc, if_neg hc]
      rw [not_not] at hc
      have hall₁ := obs_each_of_count_eq rows₁ name hnd hc
      have hall₂ := obs_each_of_count_eq rows₂ name hnd₂ (by rw [← hcnt, ← hlen12]; exact hc)
      obtain ⟨r₁, rest₁, hr₁⟩ : ∃ r rest, rows₁ = r :: rest := by
        cases hrr : rows₁ with
        | nil => rw [hrr] at h1; exact absurd rfl h1
        | cons a b => exact ⟨a, b, rfl⟩
      obtain ⟨r₂, rest₂, hr₂⟩ : ∃ r rest, rows₂ = r :: rest := by
        cases hrr : rows₂ with
        | nil => rw [hrr] at h2; exact absurd rfl h2
        | cons a b => exact ⟨a, b, rfl⟩
      have hf₁ : decide (obsOf (rows₁.headD []) name = []) = false := by
        rw [hr₁]
        simp only [List.headD_cons]
        simpa using hall₁ r₁ (by rw [hr₁]; exact List.mem_cons_self r₁ rest₁)
      have hf₂ : decide (obsOf (rows₂.headD []) name = []) = false := by
        rw [hr₂]
        simp only [List.headD_cons]
        simpa using hall₂ r₂ (by rw [hr₂]; exact List.mem_cons_self r₂ rest₂)
      rw [hf₁, hf₂]

/-- Witness for c2_perm_invariance on a one-row stream. -/
theorem c2_perm_invariance_witness :
    ([[("x", IonValue.string "a")]] : List (List (String × IonValue))).Perm
        [[("x", IonValue.string "a")]] ∧
    (∀ r ∈ ([[("x", IonValue.string "a")]] : List (List (String × IonValue))), r ≠ []) ∧
    (∀ r ∈ ([[("x", IonValue.string "a")]] : List (List (String × IonValue))),
      (r.map Prod.fst).Nodup) ∧
    unmarshalFinalStatus [] = .ok zeroFinalStatus ∧
    (zeroFinalStatus.ResultSet = none ∨
      ∃ fields, zeroFinalStatus.ResultSet = some (.struct fields)) ∧
    (deriveSchema ([[("x", IonValue.string "a")]].map rowItem ++ [fsItem [] ])).map
        (fun sch => (colFor sch.Columns "x").map attrsOf)
      = (deriveSchema ([[("x", IonValue.string "a")]].map rowItem ++ [fsItem [] ])).map
        (fun sch => (colFor sch.Columns "x").map attrsOf) :=
  ⟨List.Perm.refl _,
   fun r hr => by
     simp only [List.mem_singleton] at hr
     subst hr
     simp,
   fun r hr => by
     simp only [List.mem_singleton] at hr
     subst hr
     simp,
   rfl,
   Or.inl rfl,
   (c2_perm_invariance [[("x", IonValue.string "a")]] [[("x", IonValue.string "a")]]
     [] zeroFinalStatus (List.Perm.refl _)
     (fun r hr => by
       simp only [List.mem_singleton] at hr
       subst hr
       simp)
     (fun r hr => by
       simp only [List.mem_singleton] at hr
       subst hr
       simp)
     rfl (Or.inl rfl)).2.2 "x"⟩

/-- C3 amended: after the first pass a column whose observed count is below
the row count is marked optional (unconditionally); and a field present in
every row is never marked optional provided no row repeats a field name
(with a repeated name the count escapes the row count and the code marks
the column optional: see the counterexample). -/
theorem c3_optional (rows : List (List (String × IonValue)))
    (fsf : List (String × IonValue)) (st : snellerFinalStatus) (sch : snellerSchema)
    (hne : ∀ r ∈ rows, r ≠ [])
    (hfs : unmarshalFinalStatus fsf = .ok st)
    (hrs : st.ResultSet = none ∨ ∃ fields, st.ResultSet = some (.struct fields))
    (hds : deriveSchema (rows.map rowItem ++ [fsItem fsf]) = .ok sch) :
    ∀ name c, colFor sch.Columns name = some c →
      (c.Count < sch.RowCount → c.Optional = true) ∧
      ((∀ r ∈ rows, (r.map Prod.fst).Nodup) →
       (∀ r ∈ rows, ∃ f ∈ r, f.1 = name) → c.Optional = false) := by
  obtain ⟨sch', hds', hrc', hattr'⟩ := deriveSchema_attrs rows hne hfs hrs
  rw [hds] at hds'
  injection hds' with hinj
  subst hinj
  intro name c hcol
  have hattr := hattr' name
  rw [hcol] at hattr
  simp only [Option.map_some'] at hattr
  by_cases hobs : obsAll rows name = []
  · rw [if_pos hobs] at hattr
    exact absurd hattr (by simp)
  · rw [if_neg hobs, markOpt_closedForm] at hattr
    have hac := Option.some.inj hattr
    have hcount : c.Count = (obsAll rows name).length := congrArg ColAttrs.count hac
    have hopt : c.Optional = (if (obsAll rows name).length ≠ rows.length then true
        else decide (obsOf (rows.headD []) name = [])) := congrArg ColAttrs.optional hac
    constructor
    · intro hlt
      rw [hrc'] at hlt
      have hcond : (obsAll rows name).length ≠ rows.length := by omega
      rw [hopt, if_pos hcond]
    · intro hndr hallp
      have hall : ∀ r ∈ rows, obsOf r name ≠ [] :=
        fun r hr => obsOf_ne_nil_of_mem r name (hallp r hr)
      have hlen := obsAll_length_eq_of_all rows name hndr hall
      obtain ⟨r0, rest0, hr0⟩ : ∃ r rest, rows = r :: rest := by
        cases hrr : rows with
        | nil => rw [hrr] at hobs; exact absurd rfl hobs
        | cons a b => exact ⟨a, b, rfl⟩
      have hf : decide (obsOf (rows.headD []) name = []) = false := by
        rw [hr0]
        simp only [List.headD_cons]
        simpa using hall r0 (by rw [hr0]; exact List.mem_cons_self r0 rest0)
      rw [hopt, if_neg (by simp [hlen]), hf]

/-- Witness for c3_optional on a one-row stream whose single field x is
present in the (only) row. -/
theorem c3_optional_witness :
    deriveSchema ([[("x", IonValue.string "a")]].map rowItem ++ [fsItem []])
      = .ok { RowCount := 1,
              Columns := [{ Index := 0, Name := "x", Typ := .string, Nullable := false,
                            Optional := false, Floating := false, Signed := false,
                            Count := 1 }],
              FinalStatus := some zeroFinalStatus } ∧
    colFor [{ Index := 0, Name := "x", Typ := .string, Nullable := false,
              Optional := false, Floating := false, Signed := false,
              Count := 1 : snellerColumn }] "x"
      = some { Index := 0, Name := "x", Typ := .string, Nullable := false,
               Optional := false, Floating := false, Signed := false, Count := 1 } ∧
    ({ Index := 0, Name := "x", Typ := .string, Nullable := false, Optional := false,
       Floating := false, Signed := false, Count := 1 : snellerColumn }).Optional = false :=
  ⟨rfl, rfl,
    (c3_optional [[("x", IonValue.string "a")]] [] zeroFinalStatus
      { RowCount := 1,
        Columns := [{ Index := 0, Name := "x", Typ := .string, Nullable := false,
                      Optional := false, Floating := false, Signed := false, Count := 1 }],
        FinalStatus := some zeroFinalStatus }
      (fun r hr => by
        simp only [List.mem_singleton] at hr
        subst hr
        exact List.cons_ne_nil _ _)
      rfl (Or.inl rfl) rfl "x"
      { Index := 0, Name := "x", Typ := .string, Nullable := false, Optional := false,
        Floating := false, Signed := false, Count := 1 }
      rfl).2
      (by decide)
      (fun r hr => by
        simp only [List.mem_singleton] at hr
        subst hr
        exact ⟨("x", IonValue.string "a"), List.mem_cons_self _ _, rfl⟩)⟩

/-- Unfolding one iteration step with no recorded status. -/
theorem iterateRows_cons_none {σ : Type}
    (cb : σ → Nat → List (String × IonValue) → σ × Except DErr Unit)
    (item : TopValue) (rest : List TopValue) (s : σ) (i : Nat) :
    iterateRows cb (item :: rest) s i none
      = if item.val.typeOf ≠ .struct then
          (s, .error (.goError ("expected \x27struct\x27 type, got \x27"
            ++ typeName item.val.typeOf ++ "\x27")))
        else
          match item.annots with
          | a :: _ =>
            if a = "final_status" then
              match unmarshalFinalStatus item.val.fieldsOf with
              | .error e => (s, .error (.goError e))
              | .ok fs => iterateRows cb rest s i (some fs)
            else if a = "query_error" then
              match unmarshalQueryError item.val.fieldsOf with
              | .error e => (s, .error (.goError e))
              | .ok _ => iterateRows cb rest s i none
            else (s, .error (.goError ("unexpected annotation: [" ++ a ++ "]")))
          | [] =>
            match item.val.fieldsOf with
            | [] => (s, .error (.goError "EOF"))
            | _ :: _ =>
              match cb s i item.val.fieldsOf with
              | (s', .ok _) => iterateRows cb rest s' (i + 1) none
              | (s', .error e) => (s', .error e) := rfl

/-- A recorded status rejects any further top-level value. -/
theorem iterateRows_after_status {σ : Type}
    (cb : σ → Nat → List (String × IonValue) → σ × Except DErr Unit)
    (item : TopValue) (rest : List TopValue) (s : σ) (i : Nat)
    (st : snellerFinalStatus) :
    iterateRows cb (item :: rest) s i (some st)
      = (s, .error (.goError "unexpected data after ::final_status annotation")) := rfl

/-- A stream without a final_status-headed value never returns a status. -/
theorem iterateRows_no_final {σ : Type}
    (cb : σ → Nat → List (String × IonValue) → σ × Except DErr Unit) :
    ∀ (items : List TopValue) (s : σ) (i : Nat),
    (∀ it ∈ items, it.annots.head? ≠ some "final_status") →
    isOkB (iterateRows cb items s i none).2 = false := by
  intro items
  induction items with
  | nil => intro s i _; rfl
  | cons item rest ih =>
    intro s i hno
    rw [iterateRows_cons_none]
    by_cases ht : item.val.typeOf ≠ .struct
    · rw [if_pos ht]
      rfl
    · rw [if_neg ht]
      cases han : item.annots with
      | nil =>
        dsimp only
        cases hfld : item.val.fieldsOf with
        | nil => rfl
        | cons f fs =>
          dsimp only
          cases hcb : cb s i (f :: fs) with
          | mk s' r =>
            cases r with
            | ok u =>
              dsimp only
              exact ih s' (i + 1) (fun it hit => hno it (List.mem_cons_of_mem _ hit))
            | error e => rfl
      | cons a as =>
        dsimp only
        have hhead : item.annots.head? = some a := by rw [han]; rfl
        have ha : ¬a = "final_status" := by
          intro hcon
          exact hno item (List.mem_cons_self item rest) (by rw [hhead, hcon])
        rw [if_neg ha]
        by_cases hq : a = "query_error"
        · rw [if_pos hq]
          cases hum : unmarshalQueryError item.val.fieldsOf with
          | error e => rfl
          | ok qe =>
            dsimp only
            exact ih s i (fun it hit => hno it (List.mem_cons_of_mem _ hit))
        · rw [if_neg hq]
          rfl

/-- Any top-level value following a final_status-headed value forces an
error, wherever the envelope sits in the stream. -/
theorem iterateRows_data_after_final {σ : Type}
    (cb : σ → Nat → List (String × IonValue) → σ × Except DErr Unit)
    (fsi : TopValue) (post : List TopValue)
    (hfsi : fsi.annots.head? = some "final_status") (hpost : post ≠ []) :
    ∀ (pre : List TopValue) (s : σ) (i : Nat) (st : Option snellerFinalStatus),
    isOkB (iterateRows cb (pre ++ fsi :: post) s i st).2 = false := by
  intro pre
  induction pre with
  | nil =>
    intro s i st
    cases st with
    | some x => rw [List.nil_append, iterateRows_after_status]; rfl
    | none =>
      rw [List.nil_append, iterateRows_cons_none]
      by_cases ht : fsi.val.typeOf ≠ .struct
      · rw [if_pos ht]
        rfl
      · rw [if_neg ht]
        cases han : fsi.annots with
        | nil => rw [han] at hfsi; exact absurd hfsi (by simp)
        | cons a as =>
          dsimp only
          rw [han] at hfsi
          simp only [List.head?_cons, Option.some.injEq] at hfsi
          rw [if_pos hfsi]
          cases hum : unmarshalFinalStatus fsi.val.fieldsOf with
          | error e => rfl
          | ok fs =>
            dsimp only
            obtain ⟨q, qs, hq⟩ : ∃ q qs, post = q :: qs := by
              cases hp : post with
              | nil => exact absurd hp hpost
              | cons q qs => exact ⟨q, qs, rfl⟩
            rw [hq, iterateRows_after_status]
            rfl
  | cons p pre2 ih =>
    intro s i st
    cases st with
    | some x => rw [List.cons_append, iterateRows_after_status]; rfl
    | none =>
      rw [List.cons_append, iterateRows_cons_none]
      by_cases ht : p.val.typeOf ≠ .struct
      · rw [if_pos ht]
        rfl
      · rw [if_neg ht]
        cases han : p.annots with
        | nil =>
          dsimp only
          cases hfld : p.val.fieldsOf with
          | nil => rfl
          | cons f fs =>
            dsimp only
            cases hcb : cb s i (f :: fs) with
            | mk s2 r =>
              cases r with
              | ok u =>
                dsimp only
                exact ih s2 (i + 1) none
              | error e => rfl
        | cons a as =>
          dsimp only
          by_cases ha : a = "final_status"
          · rw [if_pos ha]
            cases hum : unmarshalFinalStatus p.val.fieldsOf with
            | error e => rfl
            | ok fs =>
              dsimp only
              exact ih s i (some fs)
          · rw [if_neg ha]
            by_cases hq : a = "query_error"
            · rw [if_pos hq]
              cases hum : unmarshalQueryError p.val.fieldsOf with
              | error e => rfl
              | ok qe =>
                dsimp only
                exact ih s i none
            · rw [if_neg hq]
              rfl

/-- C5: the Row Iterator enforces exactly one terminal envelope: a stream in
which no final_status-headed value ever appears makes iterateRows return an
error instead of a Status Envelope, and a stream in which any further
top-level value follows a final_status-headed value also makes it return an
error. -/
theorem c5_terminal_envelope {σ : Type}
    (cb : σ → Nat → List (String × IonValue) → σ × Except DErr Unit) :
    (∀ (items : List TopValue) (s : σ) (i : Nat),
      (∀ it ∈ items, it.annots.head? ≠ some "final_status") →
      isOkB (iterateRows cb items s i none).2 = false) ∧
    (∀ (pre : List TopValue) (fsi : TopValue) (post : List TopValue) (s : σ) (i : Nat),
      fsi.annots.head? = some "final_status" → post ≠ [] →
      isOkB (iterateRows cb (pre ++ fsi :: post) s i none).2 = false) :=
  ⟨iterateRows_no_final cb,
   fun pre fsi post s i hf hp => iterateRows_data_after_final cb fsi post hf hp pre s i none⟩

/-- Witness for c5_terminal_envelope: a stream holding only a data row, and
a stream holding a value after its final_status envelope. -/
theorem c5_terminal_envelope_witness :
    (∀ it ∈ [rowItem [("x", IonValue.string "v")]],
      it.annots.head? ≠ some "final_status") ∧
    isOkB (iterateRows countCb [rowItem [("x", IonValue.string "v")]] 0 0 none).2 = false ∧
    (fsItem []).annots.head? = some "final_status" ∧
    ([rowItem [("y", IonValue.string "w")]] : List TopValue) ≠ [] ∧
    isOkB (iterateRows countCb
      ([] ++ fsItem [] :: [rowItem [("y", IonValue.string "w")]]) 0 0 none).2 = false :=
  ⟨fun it hit => by
    simp only [List.mem_singleton] at hit
    subst hit
    simp [rowItem],
   (c5_terminal_envelope countCb).1 [rowItem [("x", IonValue.string "v")]] 0 0
     (fun it hit => by
       simp only [List.mem_singleton] at hit
       subst hit
       simp [rowItem]),
   rfl,
   by simp,
   (c5_terminal_envelope countCb).2 [] (fsItem []) [rowItem [("y", IonValue.string "w")]]
     0 0 rfl (by simp)⟩

/-- With distinct names, a member is exactly what its name looks up. -/
theorem colFor_of_mem {cols : List snellerColumn} {c : snellerColumn}
    (hn : (cols.map snellerColumn.Name).Nodup) (hc : c ∈ cols) :
    colFor cols c.Name = some c := by
  cases hf : colFor cols c.Name with
  | none =>
    have := List.find?_eq_none.mp hf c hc
    simp at this
  | some d =>
    have hdm := List.mem_of_find?_eq_some hf
    have hdn : d.Name = c.Name := by simpa using List.find?_some hf
    rw [List.inj_on_of_nodup_map hn hdm hc hdn]

/-- The ordinal assignment of the UnpackStruct loop: a column named at
(first) position k of the label list receives ordinal i + k, any other
column is untouched. -/
theorem colFor_applyLabels (labels : List String) :
    ∀ (cols : List snellerColumn) (i : Nat) (name : String), labels.Nodup →
    colFor (applyLabels cols labels i) name
      = (colFor cols name).map (fun c =>
          if name ∈ labels then { c with Index := (i + labels.indexOf name : Int) } else c) := by
  induction labels with
  | nil =>
    intro cols i name _
    rw [applyLabels]
    cases colFor cols name <;> simp
  | cons l rest ih =>
    intro cols i name hnd
    rw [List.nodup_cons] at hnd
    rw [applyLabels, ih _ _ _ hnd.2]
    by_cases h : name = l
    · subst h
      have hnr : name ∉ rest := hnd.1
      cases hc : colFor cols name with
      | none => rw [updateNamed_of_none hc, hc]; rfl
      | some c =>
        rw [colFor_updateNamed_self (fun c => { c with Index := (i : Int) })
          (fun c => rfl) hc]
        simp only [Option.map_some']
        rw [if_neg hnr, if_pos (List.mem_cons_self name rest)]
        have hidx : ((i : Int) + (List.indexOf name (name :: rest) : Int)) = (i : Int) := by
          rw [List.indexOf_cons_self]
          simp
        rw [hidx]
    · rw [colFor_updateNamed_other (fun c => { c with Index := (i : Int) })
        (fun c => rfl) h]
      cases hc : colFor cols name with
      | none => rfl
      | some c =>
        simp only [Option.map_some']
        by_cases hm : name ∈ rest
        · rw [if_pos hm, if_pos (List.mem_cons_of_mem _ hm)]
          have hidx : (((i + 1 : Nat) : Int) + (List.indexOf name rest : Int))
              = ((i : Int) + (List.indexOf name (l :: rest) : Int)) := by
            rw [List.indexOf_cons_ne _ (fun hh => h hh.symm)]
            push_cast
            omega
          rw [hidx]
        · rw [if_neg hm, if_neg (by
            intro hcon
            rcases List.mem_cons.mp hcon with hh | hh
            · exact h hh
            · exact hm hh)]

/-- C7 amended: with a duplicate-free label list and distinct column names,
the reorder step assigns each column named in the list its list position as
ordinal, leaves every other column untouched (it keeps its prior ordinal,
which is -1 only when its position varied across rows), and sorts the
columns in ascending ordinal order -- so a column with ordinal -1 that the
list does not name sorts strictly BEFORE every listed column, not after
it. -/
theorem c7_reorder (cols : List snellerColumn) (labels : List String)
    (hl : labels.Nodup) (hn : (cols.map snellerColumn.Name).Nodup) :
    (∀ c ∈ restoreOrder cols labels,
        (c.Name ∈ labels → c.Index = (labels.indexOf c.Name : Int)) ∧
        (c.Name ∉ labels → c ∈ cols)) ∧
    List.Sorted idxLe (restoreOrder cols labels) ∧
    (∀ j k : Fin (restoreOrder cols labels).length,
      ((restoreOrder cols labels).get j).Index = -1 →
      ((restoreOrder cols labels).get k).Name ∈ labels →
      j < k) := by
  have hperm : (restoreOrder cols labels).Perm (applyLabels cols labels 0) :=
    List.perm_insertionSort idxLe _
  have hnames : ((applyLabels cols labels 0).map snellerColumn.Name).Nodup := by
    rw [applyLabels_map_name]
    exact hn
  have hmemchar : ∀ c ∈ restoreOrder cols labels,
      (c.Name ∈ labels → c.Index = (labels.indexOf c.Name : Int)) ∧
      (c.Name ∉ labels → c ∈ cols) := by
    intro c hc
    have hc2 : c ∈ applyLabels cols labels 0 := hperm.subset hc
    have hlook : colFor (applyLabels cols labels 0) c.Name = some c :=
      colFor_of_mem hnames hc2
    rw [colFor_applyLabels labels cols 0 c.Name hl] at hlook
    cases hc0 : colFor cols c.Name with
    | none => rw [hc0] at hlook; exact absurd hlook (by simp)
    | some c0 =>
      rw [hc0] at hlook
      simp only [Option.map_some', Option.some.injEq] at hlook
      by_cases hm : c.Name ∈ labels
      · rw [if_pos hm] at hlook
        have hname : c0.Name = c.Name := by rw [← hlook]
        constructor
        · intro _
          rw [← hlook]
          simp [hname]
        · intro hcon
          exact absurd hm hcon
      · rw [if_neg hm] at hlook
        constructor
        · intro hcon
          exact absurd hcon hm
        · intro _
          rw [← hlook]
          exact List.mem_of_find?_eq_some hc0
  refine ⟨hmemchar, List.sorted_insertionSort idxLe _, ?_⟩
  intro j k hj hk
  have hsorted : List.Sorted idxLe (restoreOrder cols labels) :=
    List.sorted_insertionSort idxLe _
  have hkidx : ((restoreOrder cols labels).get k).Index
      = (labels.indexOf ((restoreOrder cols labels).get k).Name : Int) :=
    (hmemchar _ (List.get_mem _ _ k.isLt)).1 hk
  have hkpos : (0 : Int) ≤ ((restoreOrder cols labels).get k).Index := by
    rw [hkidx]
    exact Int.natCast_nonneg _
  rcases lt_trichotomy j k with h | h | h
  · exact h
  · exfalso
    rw [h] at hj
    rw [hj] at hkpos
    omega
  · exfalso
    have := hsorted.rel_get_of_lt h
    unfold idxLe at this
    rw [hj] at this
    omega

/-- Witness for c7_reorder with one stable and one listed column. -/
theorem c7_reorder_witness :
    (["q"] : List String).Nodup ∧
    (([{ Index := 0, Name := "p", Typ := .string, Nullable := false, Optional := false,
         Floating := false, Signed := false, Count := 1 },
       { Index := 1, Name := "q", Typ := .string, Nullable := false, Optional := false,
         Floating := false, Signed := false, Count := 1 }] :
       List snellerColumn).map snellerColumn.Name).Nodup ∧
    List.Sorted idxLe (restoreOrder
      [{ Index := 0, Name := "p", Typ := .string, Nullable := false, Optional := false,
         Floating := false, Signed := false, Count := 1 },
       { Index := 1, Name := "q", Typ := .string, Nullable := false, Optional := false,
         Floating := false, Signed := false, Count := 1 }] ["q"]) :=
  ⟨by decide, by decide,
   (c7_reorder
     [{ Index := 0, Name := "p", Typ := .string, Nullable := false, Optional := false,
        Floating := false, Signed := false, Count := 1 },
      { Index := 1, Name := "q", Typ := .string, Nullable := false, Optional := false,
        Floating := false, Signed := false, Count := 1 }] ["q"]
     (by decide) (by decide)).2.1⟩

end Sneller
